import Mathlib

/-!
Verification of the spherical/rhumb-line geodesy core of the ROCOM repository
(`src/www/js/latlong.js`).  The development has two coordinated models:

* an exact-real model of the great-circle / rhumb engine (`LatLon` and its
  methods), in which JavaScript floating point numbers are idealised as `ℝ`,
  `Math.sin`/`Math.cos`/… as the Mathlib real functions, and the JavaScript
  `%` operator as the truncating remainder `jsRem`;
* an exact-rational model of the DMS text codec (`Geo.parseDMS`, `Geo.toDMS`,
  `Geo.toLat`, `Geo.toBrng` and `Number.prototype.toPrecisionFixed`), in which
  JavaScript numbers are idealised as `ℚ` and JavaScript strings as `List Char`,
  so that every codec computation is executable.

Throughout, comments of the form "line NNN" refer to `src/www/js/latlong.js`.
-/

namespace LatLong

open Real

/-! ## JavaScript numeric primitives (real model)

JavaScript's `%` is a *truncating* remainder: `a % b = a - b * trunc (a / b)`,
so the result carries the sign of the dividend `a`.  This differs from the
mathematical `mod` exactly when `a / b < 0`, which matters for the longitude
normalisation `(λ+3π) % (2π) - π` and for `Geo.toBrng`. -/

/-- Truncation toward zero, as used by the JavaScript `%` operator. -/
noncomputable def jsTrunc (x : ℝ) : ℤ := if 0 ≤ x then ⌊x⌋ else ⌈x⌉

/-- The JavaScript remainder operator `a % b` on real numbers. -/
noncomputable def jsRem (a b : ℝ) : ℝ := a - b * jsTrunc (a / b)

/-- Degrees to radians: `Number.prototype.toRadians` (lines 374-378). -/
noncomputable def toRadians (x : ℝ) : ℝ := x * π / 180

/-- Radians to degrees: `Number.prototype.toDegrees` (lines 382-386). -/
noncomputable def toDegrees (x : ℝ) : ℝ := x * 180 / π

/-- The two-argument arctangent `Math.atan2 y x`, defined from `Real.arctan`
by the usual quadrant corrections; its range is `(-π, π]`. -/
noncomputable def atan2 (y x : ℝ) : ℝ :=
  if 0 < x then arctan (y / x)
  else if x < 0 ∧ 0 ≤ y then arctan (y / x) + π
  else if x < 0 ∧ y < 0 then arctan (y / x) - π
  else if x = 0 ∧ 0 < y then π / 2
  else if x = 0 ∧ y < 0 then -(π / 2)
  else 0

/-! ## The point type and its constructor

`function LatLon(lat, lon, radius)` (lines 34-40): when `radius` is omitted it
defaults to 6371 (the mean earth radius in km). -/

/-- A point on the sphere: `lat`/`lon` in signed decimal degrees plus a
per-point `radius` in km (lines 34-40). -/
structure LatLon where
  lat : ℝ
  lon : ℝ
  radius : ℝ

/-- The constructor call `new LatLon(lat, lon)` with the radius argument
omitted, as used by every computation method: the radius defaults to 6371. -/
def latLonNew (lat lon : ℝ) : LatLon := ⟨lat, lon, 6371⟩

/-- Longitude normalisation `(λ+3π) % (2*π) - π` with the JavaScript
remainder, as written in lines 138, 166, 227, 315 and 343. -/
noncomputable def normLon (lam : ℝ) : ℝ := jsRem (lam + 3 * π) (2 * π) - π

/-! ## Great-circle operations (lines 55-230) -/

/-- The haversine intermediate
`a = sin²(Δφ/2) + cos φ1 · cos φ2 · sin²(Δλ/2)` of lines 65-67. -/
noncomputable def haversineA (p point : LatLon) : ℝ :=
  Real.sin ((toRadians point.lat - toRadians p.lat) / 2) *
      Real.sin ((toRadians point.lat - toRadians p.lat) / 2) +
    Real.cos (toRadians p.lat) * Real.cos (toRadians point.lat) *
      (Real.sin ((toRadians point.lon - toRadians p.lon) / 2) *
        Real.sin ((toRadians point.lon - toRadians p.lon) / 2))

/-- The haversine distance `d = R * c` of `LatLon.prototype.distanceTo`
(lines 55-72), before the final `toPrecisionFixed` formatting step. -/
noncomputable def distanceToRaw (p point : LatLon) : ℝ :=
  p.radius *
    (2 * atan2 (Real.sqrt (haversineA p point)) (Real.sqrt (1 - haversineA p point)))

/-- `LatLon.prototype.distanceTo` (lines 55-72): the raw haversine distance is
rendered by `toPrecisionFixed(precision)`.  The float-to-string rendering is a
pure function of the distance and the precision; it is abstracted here as the
parameter `fmt`. -/
noncomputable def distanceToFmt (fmt : ℝ → ℕ → List Char) (p point : LatLon)
    (precision : ℕ) : List Char :=
  fmt (distanceToRaw p point) precision

/-- `LatLon.prototype.bearingTo` (lines 83-93): initial great-circle bearing,
`(θ.toDegrees()+360) % 360`. -/
noncomputable def bearingTo (p point : LatLon) : ℝ :=
  jsRem
    (toDegrees (atan2
      (Real.sin (toRadians (point.lon - p.lon)) * Real.cos (toRadians point.lat))
      (Real.cos (toRadians p.lat) * Real.sin (toRadians point.lat) -
        Real.sin (toRadians p.lat) * Real.cos (toRadians point.lat) *
          Real.cos (toRadians (point.lon - p.lon)))) + 360) 360

/-- `LatLon.prototype.finalBearingTo` (lines 104-116): the initial bearing of
the reverse path (`φ1` from `point`, `φ2` from `this`, `Δλ = this.lon-point.lon`)
reversed by adding 180°: `(θ.toDegrees()+180) % 360`. -/
noncomputable def finalBearingTo (p point : LatLon) : ℝ :=
  jsRem
    (toDegrees (atan2
      (Real.sin (toRadians (p.lon - point.lon)) * Real.cos (toRadians p.lat))
      (Real.cos (toRadians point.lat) * Real.sin (toRadians p.lat) -
        Real.sin (toRadians point.lat) * Real.cos (toRadians p.lat) *
          Real.cos (toRadians (p.lon - point.lon)))) + 180) 360

/-- The un-normalised midpoint longitude `λ3 = λ1 + atan2(By, cos φ1 + Bx)`
of `LatLon.prototype.midpointTo` (line 137). -/
noncomputable def midLam3 (p point : LatLon) : ℝ :=
  toRadians p.lon +
    atan2 (Real.cos (toRadians point.lat) * Real.sin (toRadians (point.lon - p.lon)))
      (Real.cos (toRadians p.lat) +
        Real.cos (toRadians point.lat) * Real.cos (toRadians (point.lon - p.lon)))

/-- `LatLon.prototype.midpointTo` (lines 127-141). -/
noncomputable def midpointTo (p point : LatLon) : LatLon :=
  latLonNew
    (toDegrees (atan2 (Real.sin (toRadians p.lat) + Real.sin (toRadians point.lat))
      (Real.sqrt ((Real.cos (toRadians p.lat) +
          Real.cos (toRadians point.lat) * Real.cos (toRadians (point.lon - p.lon))) *
        (Real.cos (toRadians p.lat) +
          Real.cos (toRadians point.lat) * Real.cos (toRadians (point.lon - p.lon))) +
        Real.cos (toRadians point.lat) * Real.sin (toRadians (point.lon - p.lon)) *
          (Real.cos (toRadians point.lat) * Real.sin (toRadians (point.lon - p.lon)))))))
    (toDegrees (normLon (midLam3 p point)))

/-- The destination latitude `φ2` of `LatLon.prototype.destinationPoint`
(lines 162-163), with `δ = dist / radius` and `θ = brng.toRadians()`. -/
noncomputable def destPhi2 (p : LatLon) (brng dist : ℝ) : ℝ :=
  Real.arcsin (Real.sin (toRadians p.lat) * Real.cos (dist / p.radius) +
    Real.cos (toRadians p.lat) * Real.sin (dist / p.radius) * Real.cos (toRadians brng))

/-- The un-normalised destination longitude `λ2 = λ1 + atan2(...)` of
`LatLon.prototype.destinationPoint` (lines 164-165). -/
noncomputable def destLam2 (p : LatLon) (brng dist : ℝ) : ℝ :=
  toRadians p.lon +
    atan2 (Real.sin (toRadians brng) * Real.sin (dist / p.radius) * Real.cos (toRadians p.lat))
      (Real.cos (dist / p.radius) - Real.sin (toRadians p.lat) * Real.sin (destPhi2 p brng dist))

/-- `LatLon.prototype.destinationPoint` (lines 155-169). -/
noncomputable def destinationPoint (p : LatLon) (brng dist : ℝ) : LatLon :=
  latLonNew (toDegrees (destPhi2 p brng dist)) (toDegrees (normLon (destLam2 p brng dist)))

/-! ### `LatLon.intersection` (lines 183-230)

The computation is decomposed into one definition per source line.  Two
floating-point phenomena need real-model conventions: division by zero (which
in JS gives `±Infinity`/`NaN`) is the Lean convention `x / 0 = 0`, and the
`isNaN(θ1)` rounding-protection of line 196 (an `acos` argument pushed outside
`[-1,1]` gives `NaN` in JS) is modelled by testing the argument's magnitude
(Mathlib's `arccos` clamps instead of producing a `NaN`). -/

/-- Angular distance `δ12` between the two points (lines 189-190). -/
noncomputable def interDelta12 (p1 p2 : LatLon) : ℝ :=
  2 * Real.arcsin (Real.sqrt
    (Real.sin ((toRadians p2.lat - toRadians p1.lat) / 2) *
        Real.sin ((toRadians p2.lat - toRadians p1.lat) / 2) +
      Real.cos (toRadians p1.lat) * Real.cos (toRadians p2.lat) *
        (Real.sin ((toRadians p2.lon - toRadians p1.lon) / 2) *
          Real.sin ((toRadians p2.lon - toRadians p1.lon) / 2))))

/-- Initial bearing `θ1` (lines 194-196), with the `isNaN` fallback to 0. -/
noncomputable def interTheta1 (p1 p2 : LatLon) : ℝ :=
  if 1 < |(Real.sin (toRadians p2.lat) -
      Real.sin (toRadians p1.lat) * Real.cos (interDelta12 p1 p2)) /
      (Real.sin (interDelta12 p1 p2) * Real.cos (toRadians p1.lat))| then 0
  else Real.arccos ((Real.sin (toRadians p2.lat) -
      Real.sin (toRadians p1.lat) * Real.cos (interDelta12 p1 p2)) /
      (Real.sin (interDelta12 p1 p2) * Real.cos (toRadians p1.lat)))

/-- Bearing `θ2` (lines 197-198), without any fallback. -/
noncomputable def interTheta2 (p1 p2 : LatLon) : ℝ :=
  Real.arccos ((Real.sin (toRadians p1.lat) -
      Real.sin (toRadians p2.lat) * Real.cos (interDelta12 p1 p2)) /
      (Real.sin (interDelta12 p1 p2) * Real.cos (toRadians p2.lat)))

/-- `θ12` (lines 200-206). -/
noncomputable def interTheta12 (p1 p2 : LatLon) : ℝ :=
  if 0 < Real.sin (toRadians p2.lon - toRadians p1.lon) then interTheta1 p1 p2
  else 2 * π - interTheta1 p1 p2

/-- `θ21` (lines 200-206). -/
noncomputable def interTheta21 (p1 p2 : LatLon) : ℝ :=
  if 0 < Real.sin (toRadians p2.lon - toRadians p1.lon) then 2 * π - interTheta2 p1 p2
  else interTheta2 p1 p2

/-- Corner angle `α1 = (θ13 - θ12 + π) % (2π) - π` (line 208). -/
noncomputable def interAlpha1 (p1 : LatLon) (brng1 : ℝ) (p2 : LatLon) : ℝ :=
  jsRem (toRadians brng1 - interTheta12 p1 p2 + π) (2 * π) - π

/-- Corner angle `α2 = (θ21 - θ23 + π) % (2π) - π` (line 209). -/
noncomputable def interAlpha2 (p1 p2 : LatLon) (brng2 : ℝ) : ℝ :=
  jsRem (interTheta21 p1 p2 - toRadians brng2 + π) (2 * π) - π

/-- `α3` (lines 218-219). -/
noncomputable def interAlpha3 (p1 : LatLon) (brng1 : ℝ) (p2 : LatLon) (brng2 : ℝ) : ℝ :=
  Real.arccos (-Real.cos (interAlpha1 p1 brng1 p2) * Real.cos (interAlpha2 p1 p2 brng2) +
    Real.sin (interAlpha1 p1 brng1 p2) * Real.sin (interAlpha2 p1 p2 brng2) *
      Real.cos (interDelta12 p1 p2))

/-- `δ13` (lines 220-221). -/
noncomputable def interDelta13 (p1 : LatLon) (brng1 : ℝ) (p2 : LatLon) (brng2 : ℝ) : ℝ :=
  atan2 (Real.sin (interDelta12 p1 p2) * Real.sin (interAlpha1 p1 brng1 p2) *
      Real.sin (interAlpha2 p1 p2 brng2))
    (Real.cos (interAlpha2 p1 p2 brng2) +
      Real.cos (interAlpha1 p1 brng1 p2) * Real.cos (interAlpha3 p1 brng1 p2 brng2))

/-- `φ3` (lines 222-223). -/
noncomputable def interPhi3 (p1 : LatLon) (brng1 : ℝ) (p2 : LatLon) (brng2 : ℝ) : ℝ :=
  Real.arcsin (Real.sin (toRadians p1.lat) * Real.cos (interDelta13 p1 brng1 p2 brng2) +
    Real.cos (toRadians p1.lat) * Real.sin (interDelta13 p1 brng1 p2 brng2) *
      Real.cos (toRadians brng1))

/-- Un-normalised `λ3 = λ1 + Δλ13` (lines 224-226). -/
noncomputable def interLam3 (p1 : LatLon) (brng1 : ℝ) (p2 : LatLon) (brng2 : ℝ) : ℝ :=
  toRadians p1.lon +
    atan2 (Real.sin (toRadians brng1) * Real.sin (interDelta13 p1 brng1 p2 brng2) *
        Real.cos (toRadians p1.lat))
      (Real.cos (interDelta13 p1 brng1 p2 brng2) -
        Real.sin (toRadians p1.lat) * Real.sin (interPhi3 p1 brng1 p2 brng2))

/-- `LatLon.intersection` (lines 183-230): `none` models the `null` returns of
lines 191 (coincident points), 211 (infinite intersections) and 212 (ambiguous
intersection). -/
noncomputable def intersection (p1 : LatLon) (brng1 : ℝ) (p2 : LatLon) (brng2 : ℝ) :
    Option LatLon :=
  if interDelta12 p1 p2 = 0 then none
  else if Real.sin (interAlpha1 p1 brng1 p2) = 0 ∧ Real.sin (interAlpha2 p1 p2 brng2) = 0 then
    none
  else if Real.sin (interAlpha1 p1 brng1 p2) * Real.sin (interAlpha2 p1 p2 brng2) < 0 then
    none
  else some (latLonNew (toDegrees (interPhi3 p1 brng1 p2 brng2))
    (toDegrees (normLon (interLam3 p1 brng1 p2 brng2))))

/-! ## Rhumb-line operations (lines 244-346) -/

/-- The ill-conditioning guard shared by `rhumbDistanceTo` (line 257) and
`rhumbDestinationPoint` (line 309): `Math.abs(Δψ) > 10e-12 ? Δφ/Δψ : cos φ1`. -/
noncomputable def qSel (dphi dpsi phi1 : ℝ) : ℝ :=
  if 10e-12 < |dpsi| then dphi / dpsi else Real.cos phi1

/-- `Δψ = ln(tan(φ2/2+π/4) / tan(φ1/2+π/4))` of `rhumbDistanceTo` (line 254). -/
noncomputable def rhumbDistPsi (p point : LatLon) : ℝ :=
  Real.log (Real.tan (toRadians point.lat / 2 + π / 4) /
    Real.tan (toRadians p.lat / 2 + π / 4))

/-- `Δλ` of `rhumbDistanceTo` (lines 248-250): `abs(point.lon-this.lon)` in
radians, folded across the anti-meridian when above `π`. -/
noncomputable def rhumbDistLam (p point : LatLon) : ℝ :=
  if π < abs (toRadians (abs (point.lon - p.lon))) then
    (if 0 < toRadians (abs (point.lon - p.lon)) then
      -(2 * π - toRadians (abs (point.lon - p.lon)))
     else 2 * π + toRadians (abs (point.lon - p.lon)))
  else toRadians (abs (point.lon - p.lon))

/-- The stretch factor `q` of `rhumbDistanceTo` (line 257). -/
noncomputable def rhumbDistQ (p point : LatLon) : ℝ :=
  qSel (toRadians point.lat - toRadians p.lat) (rhumbDistPsi p point) (toRadians p.lat)

/-- `LatLon.prototype.rhumbDistanceTo` (lines 244-264), before the final
`toPrecisionFixed(4)` formatting step. -/
noncomputable def rhumbDistanceToRaw (p point : LatLon) : ℝ :=
  Real.sqrt ((toRadians point.lat - toRadians p.lat) * (toRadians point.lat - toRadians p.lat) +
    rhumbDistQ p point * rhumbDistQ p point * rhumbDistLam p point * rhumbDistLam p point) *
    p.radius

/-- `Δφ = δ * cos θ` of `rhumbDestinationPoint` (line 302). -/
noncomputable def rhumbDestDphi (p : LatLon) (brng dist : ℝ) : ℝ :=
  dist / p.radius * Real.cos (toRadians brng)

/-- `φ2` of `rhumbDestinationPoint` (lines 304-306), reflected at a pole when
`|φ2| > π/2`. -/
noncomputable def rhumbDestPhi2 (p : LatLon) (brng dist : ℝ) : ℝ :=
  if π / 2 < |toRadians p.lat + rhumbDestDphi p brng dist| then
    (if 0 < toRadians p.lat + rhumbDestDphi p brng dist then
      π - (toRadians p.lat + rhumbDestDphi p brng dist)
     else -π - (toRadians p.lat + rhumbDestDphi p brng dist))
  else toRadians p.lat + rhumbDestDphi p brng dist

/-- `Δψ` of `rhumbDestinationPoint` (line 308). -/
noncomputable def rhumbDestPsi (p : LatLon) (brng dist : ℝ) : ℝ :=
  Real.log (Real.tan (rhumbDestPhi2 p brng dist / 2 + π / 4) /
    Real.tan (toRadians p.lat / 2 + π / 4))

/-- The stretch factor `q` of `rhumbDestinationPoint` (line 309). -/
noncomputable def rhumbDestQ (p : LatLon) (brng dist : ℝ) : ℝ :=
  qSel (rhumbDestDphi p brng dist) (rhumbDestPsi p brng dist) (toRadians p.lat)

/-- The un-normalised `λ2 = λ1 + δ*sin θ/q` of `rhumbDestinationPoint`
(lines 311-313). -/
noncomputable def rhumbDestPre (p : LatLon) (brng dist : ℝ) : ℝ :=
  toRadians p.lon + dist / p.radius * Real.sin (toRadians brng) / rhumbDestQ p brng dist

/-- `LatLon.prototype.rhumbDestinationPoint` (lines 297-318). -/
noncomputable def rhumbDestinationPoint (p : LatLon) (brng dist : ℝ) : LatLon :=
  latLonNew (toDegrees (rhumbDestPhi2 p brng dist)) (toDegrees (normLon (rhumbDestPre p brng dist)))

/-- `λ1`, adjusted by a full turn when crossing the anti-meridian
(`rhumbMidpointTo`, line 333). -/
noncomputable def rhumbMidLam1 (p point : LatLon) : ℝ :=
  if π < |toRadians point.lon - toRadians p.lon| then toRadians p.lon + 2 * π
  else toRadians p.lon

/-- The interpolated un-normalised midpoint longitude `λ3` of
`rhumbMidpointTo` (lines 335-341).  In JS the `isFinite` guard of line 341
catches the `0/0` and `x/0` of a constant-latitude pair; in the real model
that degenerate case is exactly `ln(f2/f1) = 0`. -/
noncomputable def rhumbMidPre (p point : LatLon) : ℝ :=
  if Real.log (Real.tan (π / 4 + toRadians point.lat / 2) /
      Real.tan (π / 4 + toRadians p.lat / 2)) = 0 then
    (rhumbMidLam1 p point + toRadians point.lon) / 2
  else
    ((toRadians point.lon - rhumbMidLam1 p point) *
        Real.log (Real.tan (π / 4 + (toRadians p.lat + toRadians point.lat) / 2 / 2)) +
      rhumbMidLam1 p point * Real.log (Real.tan (π / 4 + toRadians point.lat / 2)) -
      toRadians point.lon * Real.log (Real.tan (π / 4 + toRadians p.lat / 2))) /
    Real.log (Real.tan (π / 4 + toRadians point.lat / 2) /
      Real.tan (π / 4 + toRadians p.lat / 2))

/-- `LatLon.prototype.rhumbMidpointTo` (lines 329-346). -/
noncomputable def rhumbMidpointTo (p point : LatLon) : LatLon :=
  latLonNew (toDegrees ((toRadians p.lat + toRadians point.lat) / 2))
    (toDegrees (normLon (rhumbMidPre p point)))

/-! ## Exact-rational model of the DMS text codec

JavaScript numbers are idealised as `ℚ` (the codec arithmetic — scaling,
`toFixed` rounding, floor, remainder — is exact on rationals) and strings as
`List Char`.  Everything in this part is computable. -/

/-- Truncation toward zero on rationals (the JavaScript `%` operator). -/
def jsTruncQ (x : ℚ) : ℤ := if 0 ≤ x then ⌊x⌋ else ⌈x⌉

/-- The JavaScript remainder `a % b` on rationals. -/
def jsRemQ (a b : ℚ) : ℚ := a - b * jsTruncQ (a / b)

/-- Rounding of ECMAScript `toFixed`: nearest integer, ties to the larger
(`half-up` on the nonnegative values the codec feeds it). -/
def roundHU (q : ℚ) : ℕ := (⌊q + 1/2⌋).toNat

/-- Decimal digit character for `0..9`. -/
def digitChar (n : ℕ) : Char :=
  if n = 0 then '0' else if n = 1 then '1' else if n = 2 then '2'
  else if n = 3 then '3' else if n = 4 then '4' else if n = 5 then '5'
  else if n = 6 then '6' else if n = 7 then '7' else if n = 8 then '8' else '9'

/-- Numeric value of a digit character. -/
def charVal (c : Char) : ℕ := c.toNat - 48

/-- Value of a decimal digit string. -/
def digitsVal (l : List Char) : ℕ := l.foldl (fun a c => 10 * a + charVal c) 0

/-- Fuelled base-10 printer (the fuel makes it structurally recursive, so
terms involving it evaluate inside the kernel). -/
def natDigitsAux : ℕ → ℕ → List Char
  | 0, _ => []
  | fuel + 1, n =>
      if n < 10 then [digitChar n]
      else natDigitsAux fuel (n / 10) ++ [digitChar (n % 10)]

/-- Decimal digit string of a natural number, as JavaScript renders an
integral number value. -/
def natDigits (n : ℕ) : List Char := natDigitsAux (n + 1) n

/-- Fixed-point rendering of `n / 10^dp`: the digits of `n` with a decimal
point inserted `dp` places from the right (fraction zero-padded), matching
JavaScript `toFixed(dp)` output for nonnegative values below 1e21. -/
def renderFixed (n dp : ℕ) : List Char :=
  if dp = 0 then natDigits n
  else natDigits (n / 10 ^ dp) ++ '.' ::
    (List.replicate (dp - (natDigits (n % 10 ^ dp)).length) '0' ++ natDigits (n % 10 ^ dp))

/-- JavaScript `v.toFixed(dp)` for the nonnegative rationals the codec feeds
it. -/
def jsToFixed (v : ℚ) (dp : ℕ) : List Char := renderFixed (roundHU (v * 10 ^ dp)) dp

/-- The numeric value denoted by the `v.toFixed(dp)` string (what JavaScript
gets back when it coerces that string to a number). -/
def fixedVal (v : ℚ) (dp : ℕ) : ℚ := (roundHU (v * 10 ^ dp) : ℚ) / 10 ^ dp

/-- Format tags `'d' | 'dm' | 'dms'` of `Geo.toDMS`. -/
inductive Fmt
  | d
  | dm
  | dms
deriving DecidableEq

/-- Zero-pad a degrees value to three digits: the two coercing comparisons
`if (d<100) d = '0'+d; if (d<10) d = '0'+d` of lines 522-524 / 531-532 /
541-542. -/
def padTo3 (n : ℕ) : List Char :=
  if n < 10 then '0' :: '0' :: natDigits n
  else if n < 100 then '0' :: natDigits n else natDigits n

/-- Zero-pad a minutes/seconds value to two digits (`if (m<10) m = '0'+m`). -/
def padTo2 (n : ℕ) : List Char :=
  if n < 10 then '0' :: natDigits n else natDigits n

/-- `Geo.toDMS` (lines 503-550) in the exact-rational model.  A `ℚ` degree
value is never NaN, so the `null` return of line 505 is unreachable here; the
"be forgiving on invalid format" default of line 514 collapses with the
`undefined` default since the format argument is typed as `Option Fmt`.
In the `dm`/`dms` branches the source rounds once into a string
(`(deg*60).toFixed(dp)`, line 528 / `(deg*3600).toFixed(dp)`, line 537) and
then re-coerces that string to its numeric value `fixedVal …` for the
floor/remainder decomposition, re-rendering the remainder with `toFixed`
(exact on a value that already has `dp` decimals). -/
def toDMSQ (deg : ℚ) (format : Option Fmt) (dp? : Option ℕ) : List Char :=
  let fmt := format.getD Fmt.dms
  let dp := dp?.getD (match fmt with | Fmt.d => 4 | Fmt.dm => 2 | Fmt.dms => 0)
  match fmt with
  | Fmt.d =>
      (if fixedVal |deg| dp < 10 then '0' :: '0' :: jsToFixed |deg| dp
       else if fixedVal |deg| dp < 100 then '0' :: jsToFixed |deg| dp
       else jsToFixed |deg| dp) ++ ['°']
  | Fmt.dm =>
      padTo3 (⌊fixedVal (|deg| * 60) dp / 60⌋).toNat ++ '°' ::
        ((if jsRemQ (fixedVal (|deg| * 60) dp) 60 < 10 then
            '0' :: jsToFixed (jsRemQ (fixedVal (|deg| * 60) dp) 60) dp
          else jsToFixed (jsRemQ (fixedVal (|deg| * 60) dp) 60) dp) ++ ['′'])
  | Fmt.dms =>
      padTo3 (⌊fixedVal (|deg| * 3600) dp / 3600⌋).toNat ++ '°' ::
        (padTo2 ((⌊fixedVal (|deg| * 3600) dp / 60⌋).toNat % 60) ++ '′' ::
          ((if jsRemQ (fixedVal (|deg| * 3600) dp) 60 < 10 then
              '0' :: jsToFixed (jsRemQ (fixedVal (|deg| * 3600) dp) 60) dp
            else jsToFixed (jsRemQ (fixedVal (|deg| * 3600) dp) 60) dp) ++ ['″']))

/-- `Geo.toLat` (lines 561-564): knock off the initial pad digit and append
the compass suffix (`deg<0 ? 'S' : 'N'`).  The `lat==null` dash branch is
unreachable in the `ℚ` model. -/
def toLatQ (deg : ℚ) (format : Option Fmt) (dp? : Option ℕ) : List Char :=
  (toDMSQ deg format dp?).drop 1 ++ [if deg < 0 then 'S' else 'N']

/-- JavaScript `brng.replace('360', '0')` of line 592: replace the first
occurrence of the substring `360` anywhere in the string. -/
def replace360 : List Char → List Char
  | [] => []
  | [c] => [c]
  | [c, d] => [c, d]
  | c :: d :: e :: t =>
      if c = '3' ∧ d = '6' ∧ e = '0' then '0' :: t
      else c :: replace360 (d :: e :: t)

/-- `Geo.toBrng` (lines 589-593): normalise by `(deg+360) % 360` with the
JavaScript remainder, render, then patch `360`.  The `brng==null` dash branch
is unreachable in the `ℚ` model. -/
def toBrngQ (deg : ℚ) (format : Option Fmt) (dp? : Option ℕ) : List Char :=
  replace360 (toDMSQ (jsRemQ (deg + 360) 360) format dp?)

/-- The `dms` branch of `toDMSQ`, re-expressed over the scaled integer
`N = roundHU(|deg| * 3600 * 10^dp)`; `toDMSQ_dms_eval` proves the two agree,
which both makes concrete renderings kernel-computable and drives the
round-trip proof. -/
def dmsRender (N dp : ℕ) : List Char :=
  padTo3 (N / (3600 * 10 ^ dp)) ++ '°' ::
    (padTo2 (N / (60 * 10 ^ dp) % 60) ++ '′' ::
      ((if N % (60 * 10 ^ dp) < 10 * 10 ^ dp then
          '0' :: renderFixed (N % (60 * 10 ^ dp)) dp
        else renderFixed (N % (60 * 10 ^ dp)) dp) ++ ['″']))

/-! ### `Geo.parseDMS` (lines 457-488) -/

/-- The character class `[0-9.,]` that survives the `split` of line 464. -/
def isFieldChar (c : Char) : Bool := c.isDigit || c == '.' || c == ','

/-- Whitespace for the `trim` of lines 422-426. -/
def isSpc (c : Char) : Bool :=
  c == ' ' || c == '\t' || c == '\n' || c == '\r' || c == '\x0b' || c == '\x0c'

/-- `String.prototype.trim` (lines 422-426). -/
def trimChars (s : List Char) : List Char :=
  ((s.dropWhile isSpc).reverse.dropWhile isSpc).reverse

/-- The leading-minus strip (`replace` of the `^-` pattern) of line 464. -/
def stripLeadMinus (s : List Char) : List Char :=
  if s.head? = some '-' then s.tail else s

/-- The compass letters of `replace(/[NSEW]$/i, '')`. -/
def isCompass (c : Char) : Bool :=
  c == 'N' || c == 'S' || c == 'E' || c == 'W' ||
  c == 'n' || c == 's' || c == 'e' || c == 'w'

/-- `replace(/[NSEW]$/i, '')` of line 464. -/
def stripCompass (s : List Char) : List Char :=
  match s.getLast? with
  | some c => if isCompass c then s.dropLast else s
  | none => s

/-- JavaScript `split(/[^0-9.,]+/)` (line 464): split on maximal runs of
non-field characters.  The boolean records whether the scanner is inside a
separator run (so that adjacent separators merge, and a leading or trailing
separator produces an empty field, exactly as the JS engine does). -/
def jsSplitAux : Bool → List Char → List Char → List (List Char)
  | false, acc, [] => [acc.reverse]
  | false, acc, c :: rest =>
      if isFieldChar c then jsSplitAux false (c :: acc) rest
      else acc.reverse :: jsSplitAux true [] rest
  | true, _, [] => [[]]
  | true, _, c :: rest =>
      if isFieldChar c then jsSplitAux false [c] rest
      else jsSplitAux true [] rest

def jsSplit (s : List Char) : List (List Char) := jsSplitAux false [] s

/-- Split a field at its first decimal point. -/
def splitAtDot : List Char → List Char × List Char
  | [] => ([], [])
  | c :: rest =>
      if c = '.' then ([], rest)
      else (c :: (splitAtDot rest).1, (splitAtDot rest).2)

/-- JavaScript `Number()` coercion restricted to the character set `[0-9.,]`
that the split fields consist of: the empty string coerces to 0, a decimal
numeral with at most one point to its value, and anything else (a comma, two
points, a lone point) to NaN, modelled as `none`. -/
def fieldNumber (s : List Char) : Option ℚ :=
  if s = [] then some 0
  else if (∀ c ∈ s, c.isDigit = true ∨ c = '.') ∧ s.count '.' ≤ 1 ∧ s ≠ ['.'] then
    some ((digitsVal (splitAtDot s).1 : ℚ) +
      (digitsVal (splitAtDot s).2 : ℚ) / 10 ^ (splitAtDot s).2.length)
  else none

/-- The field list computed by lines 464-465: trim, strip a leading sign and
a trailing compass letter, split, and splice away a trailing empty field. -/
def parseFields (s : List Char) : List (List Char) :=
  let dms := jsSplit (stripCompass (stripLeadMinus (trimChars s)))
  if dms.getLast? = some [] then dms.dropLast else dms

/-- The negation test `/^-|[WS]$/i.test(dmsStr.trim())` of line 486. -/
def negTest (s : List Char) : Bool :=
  (trimChars s).head? == some '-' ||
  ((trimChars s).getLast? == some 'W' || (trimChars s).getLast? == some 'w' ||
   (trimChars s).getLast? == some 'S' || (trimChars s).getLast? == some 's')

/-- `Geo.parseDMS` on a string (lines 457-488), `none` modelling the NaN
sentinel.  The `dms == ''` test of line 467 coerces the field array to a
string (`join(',')`), which is empty exactly for `[]` and `['']`. -/
def parseDMSStr (s : List Char) : Option ℚ :=
  if parseFields s = [] ∨ parseFields s = [[]] then none
  else
    match parseFields s with
    | [a, b, c] => do
        let x ← fieldNumber a
        let y ← fieldNumber b
        let z ← fieldNumber c
        pure (if negTest s then -(x + y / 60 + z / 3600) else x + y / 60 + z / 3600)
    | [a, b] => do
        let x ← fieldNumber a
        let y ← fieldNumber b
        pure (if negTest s then -(x + y / 60) else x + y / 60)
    | [a] => (fieldNumber a).map (fun v => if negTest s then -v else v)
    | _ => none

/-! ### The JavaScript-value level: where the `TypeError` guards live -/

inductive JSType
  | number
  | string
  | object
  | undef
deriving DecidableEq

/-- The JavaScript values relevant to the codec entry points: a (finite)
number, a string, or a plain non-numeric non-string object. -/
inductive JSVal
  | num (x : ℚ)
  | str (s : List Char)
  | obj
deriving DecidableEq

def jsTypeof : JSVal → JSType
  | .num _ => .number
  | .str _ => .string
  | .obj => .object

/-- `typeof deg` as evaluated at line 458: `deg` there is `parseDMS`'s own
`var`-hoisted local (declared in the `switch` at lines 472-478), still
unassigned — i.e. `undefined` — when the guard runs.  The parameter is named
`dmsStr`, not `deg`. -/
def typeofHoistedDeg : JSType := JSType.undef

inductive TypeErr
  | typeError
deriving DecidableEq

/-- `String(v)` for a plain object. -/
def objString : List Char := "[object Object]".toList

/-- `Geo.parseDMS` (lines 457-488) at the JavaScript-value level.  The guard
of line 458 tests `typeof deg` — the hoisted, still-undefined local — so it
never fires: an object argument is stringified by line 464 and parsed like
any other string. -/
def parseDMS (dmsStr : JSVal) : Except TypeErr (Option ℚ) :=
  if typeofHoistedDeg = JSType.object then Except.error TypeErr.typeError
  else
    match dmsStr with
    | JSVal.num x => Except.ok (some x)     -- line 461: every ℚ is finite
    | JSVal.str s => Except.ok (parseDMSStr s)
    | JSVal.obj => Except.ok (parseDMSStr objString)

/-- Full `Number(string)` for `Geo.toDMS`'s implicit string coercion: trim,
optional sign, then a decimal numeral (`Infinity`, hex and exponent literals
do not arise from the callers modelled here). -/
def jsNumber (s : List Char) : Option ℚ :=
  match trimChars s with
  | '-' :: rest => if rest = [] then none else (fieldNumber rest).map (fun v => -v)
  | '+' :: rest => if rest = [] then none else fieldNumber rest
  | t => fieldNumber t

/-- `Geo.toDMS` (lines 503-550) at the JavaScript-value level: the guard of
line 504 correctly tests its own parameter `deg`, so an object input throws
`TypeError`; a string input coercing to NaN yields the `null` of line 505,
modelled as `none`.  The `JSVal.obj` match arm below is dead code (the guard
has already returned). -/
def toDMSVal (deg : JSVal) (format : Option Fmt) (dp? : Option ℕ) :
    Except TypeErr (Option (List Char)) :=
  if jsTypeof deg = JSType.object then Except.error TypeErr.typeError
  else Except.ok (match deg with
    | JSVal.num x => some (toDMSQ x format dp?)
    | JSVal.str s => (jsNumber s).map (fun x => toDMSQ x format dp?)
    | JSVal.obj => none)

/-! ## C4: the format/parse round trip.

The proof chain: `toLatQ x dms dp` renders the scaled integer
`N = roundHU(|x|·3600·10^dp)` as `DD°MM′SS…″` plus a compass letter
(`toDMSQ_dms_eval`); splitting that string recovers the three digit fields;
their values recombine to exactly `N/10^dp/3600`, which is within
`0.5·10^(-dp)` arcseconds of `|x|`. -/

def AllDigits (l : List Char) : Prop := ∀ c ∈ l, c.isDigit = true

/-! ## C3: `Number.prototype.toPrecisionFixed` (lines 395-418)

The built-in `toPrecision` does the float formatting; the code under
verification is the pair of regex replaces that rewrite exponential notation
into zero-padded fixed point.  The model works on the output string of
`toPrecision`: either a plain fixed numeral or `<sig>e<sign><exp>`. -/

/-- Scan for the first `e` immediately followed by `sgn`, returning the text
before and after (the capture groups of the regexes at lines 402 and 410;
under the single-`e` shape of `toPrecision` output the first occurrence is
also the one the greedy regex captures). -/
def findESign (sgn : Char) : List Char → List Char → Option (List Char × List Char)
  | _, [] => none
  | _, [_] => none
  | acc, c :: d :: rest =>
      if c = 'e' ∧ d = sgn then some (acc.reverse, rest)
      else findESign sgn (c :: acc) (d :: rest)

/-- Remove the first decimal point (the significand `replace` of lines
403 and 411). -/
def removeFirstDot : List Char → List Char
  | [] => []
  | c :: rest => if c = '.' then rest else c :: removeFirstDot rest

/-- Append `exp - l` zeros, `l` being one less than the dot-free significand
length (the `while (exp-- > l)` loop of lines 404-405). -/
def padPosExp (sig : List Char) (exp : ℕ) : List Char :=
  sig ++ List.replicate (exp - (sig.length - 1)) '0'

/-- Lines 402-407: rewrite `<sig>e+<exp>` as the significand padded with
trailing zeros; the regex requires nonempty significand and exponent. -/
def replaceEPlus (s : List Char) : List Char :=
  match findESign '+' [] s with
  | some (sig, exp) =>
      if sig = [] ∨ exp = [] then s
      else padPosExp (removeFirstDot sig) (digitsVal exp)
  | none => s

/-- Lines 410-414: rewrite `<sig>e-<exp>` as `0.` plus `exp - 1` leading
zeros plus the significand (the `while (exp-- > 1)` loop of line 412). -/
def replaceENeg (s : List Char) : List Char :=
  match findESign '-' [] s with
  | some (sig, exp) =>
      if sig = [] ∨ exp = [] then s
      else '0' :: '.' :: (List.replicate (digitsVal exp - 1) '0' ++ removeFirstDot sig)
  | none => s

/-- The post-processing of `toPrecisionFixed` (lines 395-418): the
positive-exponent replace followed by the negative-exponent replace. -/
def toPrecisionFixedPost (s : List Char) : List Char := replaceENeg (replaceEPlus s)

/-- The shape of ECMAScript `toPrecision` output: either a plain fixed-point
numeral (no `e` at all), or `<sig>e<sign><exp>` with a nonempty `e`-free
significand and a nonempty digit exponent. -/
def PrecOut (s : List Char) : Prop :=
  'e' ∉ s ∨
  ∃ sig sgn exp, s = sig ++ 'e' :: sgn :: exp ∧ 'e' ∉ sig ∧ sig ≠ [] ∧
    exp ≠ [] ∧ AllDigits exp ∧ (sgn = '+' ∨ sgn = '-')

theorem jsRem_eq_fract_mul (a b : ℝ) (ha : 0 ≤ a) (hb : 0 < b) :
    jsRem a b = b * Int.fract (a / b) := by
  have hdiv : 0 ≤ a / b := div_nonneg ha hb.le
  rw [jsRem, jsTrunc, if_pos hdiv, Int.fract]
  have hb' : b ≠ 0 := ne_of_gt hb
  field_simp

theorem jsRem_nonneg (a b : ℝ) (ha : 0 ≤ a) (hb : 0 < b) : 0 ≤ jsRem a b := by
  rw [jsRem_eq_fract_mul a b ha hb]
  exact mul_nonneg hb.le (Int.fract_nonneg _)

theorem jsRem_lt (a b : ℝ) (ha : 0 ≤ a) (hb : 0 < b) : jsRem a b < b := by
  rw [jsRem_eq_fract_mul a b ha hb]
  calc b * Int.fract (a / b) < b * 1 := by
        exact mul_lt_mul_of_pos_left (Int.fract_lt_one _) hb
    _ = b := mul_one b

theorem jsRem_of_nonneg_of_lt (a b : ℝ) (ha : 0 ≤ a) (hab : a < b) :
    jsRem a b = a := by
  have hb : 0 < b := lt_of_le_of_lt ha hab
  have hdiv : 0 ≤ a / b := div_nonneg ha hb.le
  have hfloor : ⌊a / b⌋ = 0 := by
    rw [Int.floor_eq_zero_iff]
    constructor
    · exact hdiv
    · rw [div_lt_one hb]; exact hab
  rw [jsRem, jsTrunc, if_pos hdiv, hfloor]
  simp

theorem jsRem_of_le_of_lt_two (a b : ℝ) (hb : 0 < b) (hba : b ≤ a)
    (hab : a < 2 * b) : jsRem a b = a - b := by
  have hdiv : 0 ≤ a / b := div_nonneg (hb.le.trans hba) hb.le
  have hfloor : ⌊a / b⌋ = 1 := by
    rw [Int.floor_eq_iff]
    constructor
    · push_cast
      rw [le_div_iff₀ hb]; linarith
    · push_cast
      rw [div_lt_iff₀ hb]; linarith
  rw [jsRem, jsTrunc, if_pos hdiv, hfloor]
  simp

theorem atan2_range (y x : ℝ) : -π < atan2 y x ∧ atan2 y x ≤ π := by
  have hpi := pi_pos
  unfold atan2
  split_ifs with h1 h2 h3 h4 h5
  · constructor
    · have := neg_pi_div_two_lt_arctan (y / x); linarith
    · have := arctan_lt_pi_div_two (y / x); linarith
  · -- x < 0, 0 ≤ y: y / x ≤ 0, so arctan (y/x) ≤ 0 and the sum is in (π/2, π]
    have hq : y / x ≤ 0 := div_nonpos_of_nonneg_of_nonpos h2.2 h2.1.le
    have harc : arctan (y / x) ≤ 0 := by
      have := arctan_strictMono.monotone hq
      rwa [arctan_zero] at this
    have harc2 := neg_pi_div_two_lt_arctan (y / x)
    constructor <;> linarith
  · -- x < 0, y < 0: y / x > 0, so arctan (y/x) > 0 and the result is in (-π, -π/2)
    have hq : 0 < y / x := div_pos_of_neg_of_neg h3.2 h3.1
    have harc : 0 < arctan (y / x) := by
      have := arctan_strictMono hq
      rwa [arctan_zero] at this
    have harc2 := arctan_lt_pi_div_two (y / x)
    constructor <;> linarith
  · constructor <;> linarith
  · constructor <;> linarith
  · constructor <;> linarith

theorem normLon_mem (lam : ℝ) (h : -(3 * π) ≤ lam) :
    -π ≤ normLon lam ∧ normLon lam < π := by
  have hpi := pi_pos
  have ha : 0 ≤ lam + 3 * π := by linarith
  have hb : (0:ℝ) < 2 * π := by linarith
  have h1 := jsRem_nonneg (lam + 3 * π) (2 * π) ha hb
  have h2 := jsRem_lt (lam + 3 * π) (2 * π) ha hb
  constructor <;> (unfold normLon; linarith)

theorem toDegrees_lt_of_lt (x c : ℝ) (h : x < c * π / 180) : toDegrees x < c := by
  have hpi := pi_pos
  rw [toDegrees, div_lt_iff₀ hpi]
  calc x * 180 < (c * π / 180) * 180 := by
        exact mul_lt_mul_of_pos_right h (by norm_num)
    _ = c * π := by field_simp
    _ = c * π := rfl

theorem toDegrees_le_of_le (c x : ℝ) (h : c * π / 180 ≤ x) : c ≤ toDegrees x := by
  have hpi := pi_pos
  rw [toDegrees, le_div_iff₀ hpi]
  calc c * π = (c * π / 180) * 180 := by field_simp
    _ ≤ x * 180 := mul_le_mul_of_nonneg_right h (by norm_num)

/-- Degrees of the normalised longitude lie in `[-180, 180)` whenever the
un-normalised longitude is at least `-3π` (so that the JS remainder agrees
with the mathematical one). -/
theorem normLonDeg_mem (lam : ℝ) (h : -(3 * π) ≤ lam) :
    -180 ≤ toDegrees (normLon lam) ∧ toDegrees (normLon lam) < 180 := by
  obtain ⟨h1, h2⟩ := normLon_mem lam h
  constructor
  · apply toDegrees_le_of_le
    have : (-180 : ℝ) * π / 180 = -π := by ring
    rw [this]; exact h1
  · apply toDegrees_lt_of_lt
    have : (180 : ℝ) * π / 180 = π := by ring
    rw [this]; exact h2

/-! ## Supporting lemmas for the longitude-range claims -/

theorem toRadians_abs_le (lonDeg : ℝ) (h : |lonDeg| ≤ 180) : -π ≤ toRadians lonDeg := by
  have hpi := pi_pos
  have h1 : -(180:ℝ) ≤ lonDeg := (abs_le.mp h).1
  unfold toRadians
  nlinarith

theorem preLam_bound (lonDeg t : ℝ) (hlon : |lonDeg| ≤ 180) (ht : -π < t) :
    -(3 * π) ≤ toRadians lonDeg + t := by
  have hpi := pi_pos
  have h1 := toRadians_abs_le lonDeg hlon
  linarith

/-- C2 (amended).  Each of the five point-producing operations normalises its
longitude via `(λ+3π) % (2π) - π` with the JavaScript truncating remainder, so
whenever the un-normalised longitude is at least `-3π` — which holds for
`midpointTo`, `destinationPoint` and `intersection` as soon as the origin
longitude lies in `[-180, 180]`, and is an explicit hypothesis for the two
unbounded rhumb operations — the resulting longitude lies in the half-open
interval `[-180, +180)` (not `(-180, +180]` as claimed: `-180` is attainable
and `+180` is not, and longitudes below `-3π` before normalisation escape the
interval entirely). -/
theorem c2_longitude_normalisation :
    (∀ lam : ℝ, -(3 * π) ≤ lam →
      -180 ≤ toDegrees (normLon lam) ∧ toDegrees (normLon lam) < 180) ∧
    (∀ p point : LatLon, |p.lon| ≤ 180 →
      -180 ≤ (midpointTo p point).lon ∧ (midpointTo p point).lon < 180) ∧
    (∀ p : LatLon, ∀ brng dist : ℝ, |p.lon| ≤ 180 →
      -180 ≤ (destinationPoint p brng dist).lon ∧ (destinationPoint p brng dist).lon < 180) ∧
    (∀ p1 : LatLon, ∀ brng1 : ℝ, ∀ p2 : LatLon, ∀ brng2 : ℝ, |p1.lon| ≤ 180 →
      -180 ≤ ((intersection p1 brng1 p2 brng2).map LatLon.lon).getD 0 ∧
        ((intersection p1 brng1 p2 brng2).map LatLon.lon).getD 0 < 180) ∧
    (∀ p : LatLon, ∀ brng dist : ℝ, -(3 * π) ≤ rhumbDestPre p brng dist →
      -180 ≤ (rhumbDestinationPoint p brng dist).lon ∧
        (rhumbDestinationPoint p brng dist).lon < 180) ∧
    (∀ p point : LatLon, -(3 * π) ≤ rhumbMidPre p point →
      -180 ≤ (rhumbMidpointTo p point).lon ∧ (rhumbMidpointTo p point).lon < 180) := by
  refine ⟨fun lam h => normLonDeg_mem lam h, ?_, ?_, ?_, ?_, ?_⟩
  · intro p point hlon
    exact normLonDeg_mem _ (preLam_bound p.lon _ hlon (atan2_range _ _).1)
  · intro p brng dist hlon
    exact normLonDeg_mem _ (preLam_bound p.lon _ hlon (atan2_range _ _).1)
  · intro p1 brng1 p2 brng2 hlon
    unfold intersection
    split_ifs
    · norm_num
    · norm_num
    · norm_num
    · simp only [Option.map_some, Option.getD_some, latLonNew]
      exact normLonDeg_mem _ (preLam_bound p1.lon _ hlon (atan2_range _ _).1)
  · intro p brng dist h
    exact normLonDeg_mem _ h
  · intro p point h
    exact normLonDeg_mem _ h

/-- C2 fails as stated: with an input longitude of `-1000`, the JavaScript
remainder in `(λ+3π) % (2π) - π` is taken of a negative dividend, and
`midpointTo` returns the longitude `-280`, outside `(-180, +180]`. -/
theorem c2_counterexample :
    (midpointTo ⟨0, -1000, 6371⟩ ⟨0, -1000, 6371⟩).lon = -280 ∧
    ¬(-180 < (midpointTo ⟨0, -1000, 6371⟩ ⟨0, -1000, 6371⟩).lon ∧
      (midpointTo ⟨0, -1000, 6371⟩ ⟨0, -1000, 6371⟩).lon ≤ 180) := by
  have hpi := pi_pos
  have hatan : atan2 0 2 = 0 := by
    rw [atan2, if_pos (by norm_num : (0:ℝ) < 2)]
    norm_num [arctan_zero]
  have hm : midLam3 ⟨0, -1000, 6371⟩ ⟨0, -1000, 6371⟩ = -50 * π / 9 := by
    unfold midLam3
    norm_num [toRadians, Real.cos_zero, Real.sin_zero, hatan]
    ring
  have hn : normLon (-50 * π / 9) = -14 * π / 9 := by
    unfold normLon jsRem jsTrunc
    have hx : (-50 * π / 9 + 3 * π) / (2 * π) = -23 / 18 := by
      rw [div_eq_iff (by positivity : (2:ℝ) * π ≠ 0)]
      ring
    rw [hx, if_neg (by norm_num)]
    have hc : ⌈(-23 / 18 : ℝ)⌉ = -1 := by
      rw [Int.ceil_eq_iff]
      constructor <;> norm_num
    rw [hc]
    push_cast
    ring
  have hlon : (midpointTo ⟨0, -1000, 6371⟩ ⟨0, -1000, 6371⟩).lon =
      toDegrees (normLon (midLam3 ⟨0, -1000, 6371⟩ ⟨0, -1000, 6371⟩)) := rfl
  rw [hlon, hm, hn]
  have hd : toDegrees (-14 * π / 9) = -280 := by
    unfold toDegrees
    rw [div_eq_iff (ne_of_gt hpi)]
    ring
  rw [hd]
  norm_num

/-- Witness for C2: applying the amended theorem at the origin point. -/
theorem c2_witness :
    -180 ≤ (midpointTo ⟨0, 0, 6371⟩ ⟨0, 0, 6371⟩).lon ∧
    (midpointTo ⟨0, 0, 6371⟩ ⟨0, 0, 6371⟩).lon < 180 :=
  c2_longitude_normalisation.2.1 ⟨0, 0, 6371⟩ ⟨0, 0, 6371⟩ (by norm_num)

/-! ## C5: final bearing vs reverse initial bearing -/

theorem toDegrees_le_180 {t : ℝ} (h : t ≤ π) : toDegrees t ≤ 180 := by
  have hpi := pi_pos
  rw [toDegrees, div_le_iff₀ hpi]
  nlinarith

theorem neg_180_lt_toDegrees {t : ℝ} (h : -π < t) : -180 < toDegrees t := by
  have hpi := pi_pos
  rw [toDegrees, lt_div_iff₀ hpi]
  nlinarith

theorem toDegrees_atan2_range (y x : ℝ) :
    -180 < toDegrees (atan2 y x) ∧ toDegrees (atan2 y x) ≤ 180 := by
  obtain ⟨h1, h2⟩ := atan2_range y x
  exact ⟨neg_180_lt_toDegrees h1, toDegrees_le_180 h2⟩

/-- The pure remainder arithmetic behind C5: for a raw bearing
`D ∈ (-180, 180]` in degrees, `(D+180) % 360` equals
`(((D+360) % 360) + 180) % 360` and both normalised bearings lie in
`[0, 360)`. -/
theorem jsRem_bearing_arith (D : ℝ) (h1 : -180 < D) (h2 : D ≤ 180) :
    jsRem (D + 180) 360 = jsRem (jsRem (D + 360) 360 + 180) 360 ∧
    (0 ≤ jsRem (D + 360) 360 ∧ jsRem (D + 360) 360 < 360) ∧
    (0 ≤ jsRem (D + 180) 360 ∧ jsRem (D + 180) 360 < 360) := by
  rcases lt_or_le D 0 with hneg | hpos
  · have e1 : jsRem (D + 360) 360 = D + 360 :=
      jsRem_of_nonneg_of_lt _ _ (by linarith) (by linarith)
    have e2 : jsRem (D + 360 + 180) 360 = D + 180 := by
      rw [jsRem_of_le_of_lt_two _ _ (by norm_num) (by linarith) (by linarith)]
      ring
    have e3 : jsRem (D + 180) 360 = D + 180 :=
      jsRem_of_nonneg_of_lt _ _ (by linarith) (by linarith)
    rw [e1, e2, e3]
    refine ⟨rfl, ⟨by linarith, by linarith⟩, ⟨by linarith, by linarith⟩⟩
  · have e1 : jsRem (D + 360) 360 = D := by
      rw [jsRem_of_le_of_lt_two _ _ (by norm_num) (by linarith) (by linarith)]
      ring
    rcases eq_or_lt_of_le h2 with heq | hlt
    · rw [e1, heq]
      have e2 : jsRem ((180:ℝ) + 180) 360 = 0 := by
        rw [jsRem_of_le_of_lt_two _ _ (by norm_num) (by norm_num) (by norm_num)]
        norm_num
      rw [e2]
      refine ⟨rfl, ⟨by linarith, by linarith⟩, by norm_num⟩
    · have e3 : jsRem (D + 180) 360 = D + 180 :=
        jsRem_of_nonneg_of_lt _ _ (by linarith) (by linarith)
      rw [e1, e3]
      refine ⟨rfl, ⟨by linarith, by linarith⟩, ⟨by linarith, by linarith⟩⟩

/-- C5.  `p1.finalBearingTo(p2)` equals `(p2.bearingTo(p1) + 180) % 360`
(the two share the same `atan2` computation, lines 83-93 and 104-116), and
both normalised bearings lie in `[0, 360)`. -/
theorem c5_final_bearing (p1 p2 : LatLon) :
    finalBearingTo p1 p2 = jsRem (bearingTo p2 p1 + 180) 360 ∧
    (0 ≤ bearingTo p2 p1 ∧ bearingTo p2 p1 < 360) ∧
    (0 ≤ finalBearingTo p1 p2 ∧ finalBearingTo p1 p2 < 360) := by
  unfold finalBearingTo bearingTo
  obtain ⟨hd1, hd2⟩ := toDegrees_atan2_range
    (Real.sin (toRadians (p1.lon - p2.lon)) * Real.cos (toRadians p1.lat))
    (Real.cos (toRadians p2.lat) * Real.sin (toRadians p1.lat) -
      Real.sin (toRadians p2.lat) * Real.cos (toRadians p1.lat) *
        Real.cos (toRadians (p1.lon - p2.lon)))
  obtain ⟨he, hb, hf⟩ := jsRem_bearing_arith _ hd1 hd2
  exact ⟨he, hb, hf⟩

/-! ## C9: symmetry of the haversine distance -/

theorem haversineA_symm (p point : LatLon) : haversineA p point = haversineA point p := by
  have key : ∀ x y : ℝ, Real.sin ((x - y) / 2) * Real.sin ((x - y) / 2) =
      Real.sin ((y - x) / 2) * Real.sin ((y - x) / 2) := by
    intro x y
    rw [show (x - y) / 2 = -((y - x) / 2) by ring, Real.sin_neg]
    ring
  unfold haversineA
  rw [key (toRadians point.lat) (toRadians p.lat),
    key (toRadians point.lon) (toRadians p.lon)]
  ring

/-- C9.  When the two points carry the same radius, `distanceTo` is symmetric:
the haversine intermediates agree term by term, so the raw distances and hence
their `toPrecisionFixed` renderings (an arbitrary function `fmt` of the value
and the precision) coincide. -/
theorem c9_distance_symm (fmt : ℝ → ℕ → List Char) (p1 p2 : LatLon) (precision : ℕ)
    (h : p1.radius = p2.radius) :
    distanceToFmt fmt p1 p2 precision = distanceToFmt fmt p2 p1 precision := by
  unfold distanceToFmt distanceToRaw
  rw [h, haversineA_symm]

/-- Witness for C9 at two concrete points sharing the default radius. -/
theorem c9_witness :
    distanceToFmt (fun _ _ => []) ⟨10, 20, 6371⟩ ⟨-30, 40, 6371⟩ 4 =
    distanceToFmt (fun _ _ => []) ⟨-30, 40, 6371⟩ ⟨10, 20, 6371⟩ 4 :=
  c9_distance_symm (fun _ _ => []) ⟨10, 20, 6371⟩ ⟨-30, 40, 6371⟩ 4 (by norm_num)

/-! ## C10: result points always carry the default radius -/

/-- C10.  Every point built by the five point-producing operations is
constructed by `new LatLon(lat, lon)` with the radius argument omitted, so it
carries the default radius 6371 regardless of the operand radii. -/
theorem c10_default_radius (p point p1 p2 : LatLon) (brng dist brng1 brng2 : ℝ) :
    (midpointTo p point).radius = 6371 ∧
    (destinationPoint p brng dist).radius = 6371 ∧
    ((intersection p1 brng1 p2 brng2).map LatLon.radius).getD 6371 = 6371 ∧
    (rhumbDestinationPoint p brng dist).radius = 6371 ∧
    (rhumbMidpointTo p point).radius = 6371 := by
  refine ⟨rfl, rfl, ?_, rfl, rfl⟩
  unfold intersection
  split_ifs <;> simp [latLonNew]

/-! ## C6: the rhumb-line ill-conditioning threshold -/

/-- C6.  In both `rhumbDistanceTo` and `rhumbDestinationPoint` the stretch
factor is `Δφ/Δψ` when `|Δψ|` exceeds the threshold and `cos φ1` when it
falls below it, and the threshold literal `10e-12` used at lines 257 and 309
denotes exactly `1e-11`. -/
theorem c6_rhumb_q_threshold :
    ((10e-12 : ℝ) = 1e-11) ∧
    (∀ p point : LatLon, (1e-11 : ℝ) < |rhumbDistPsi p point| →
      rhumbDistQ p point =
        (toRadians point.lat - toRadians p.lat) / rhumbDistPsi p point) ∧
    (∀ p point : LatLon, |rhumbDistPsi p point| < (1e-11 : ℝ) →
      rhumbDistQ p point = Real.cos (toRadians p.lat)) ∧
    (∀ p : LatLon, ∀ brng dist : ℝ, (1e-11 : ℝ) < |rhumbDestPsi p brng dist| →
      rhumbDestQ p brng dist = rhumbDestDphi p brng dist / rhumbDestPsi p brng dist) ∧
    (∀ p : LatLon, ∀ brng dist : ℝ, |rhumbDestPsi p brng dist| < (1e-11 : ℝ) →
      rhumbDestQ p brng dist = Real.cos (toRadians p.lat)) := by
  have hth : (10e-12 : ℝ) = 1e-11 := by norm_num
  refine ⟨hth, ?_, ?_, ?_, ?_⟩
  · intro p point h
    rw [rhumbDistQ, qSel, if_pos (by rw [hth]; exact h)]
  · intro p point h
    rw [rhumbDistQ, qSel, if_neg (by rw [hth]; exact not_lt.mpr h.le)]
  · intro p brng dist h
    rw [rhumbDestQ, qSel, if_pos (by rw [hth]; exact h)]
  · intro p brng dist h
    rw [rhumbDestQ, qSel, if_neg (by rw [hth]; exact not_lt.mpr h.le)]

/-- Witness for C6: at the origin both `Δψ` values are exactly 0, below the
threshold, so both stretch factors degrade to `cos φ1`. -/
theorem c6_witness :
    rhumbDistQ ⟨0, 0, 6371⟩ ⟨0, 0, 6371⟩ = Real.cos (toRadians 0) ∧
    rhumbDestQ ⟨0, 0, 6371⟩ 0 0 = Real.cos (toRadians 0) := by
  have hpi := pi_pos
  have hpsi1 : rhumbDistPsi ⟨0, 0, 6371⟩ ⟨0, 0, 6371⟩ = 0 := by
    unfold rhumbDistPsi
    norm_num [toRadians]
  have hphi2 : rhumbDestPhi2 ⟨0, 0, 6371⟩ 0 0 = 0 := by
    have hsum : toRadians (⟨0, 0, 6371⟩ : LatLon).lat + rhumbDestDphi ⟨0, 0, 6371⟩ 0 0 = 0 := by
      unfold rhumbDestDphi
      norm_num [toRadians]
    unfold rhumbDestPhi2
    rw [hsum, if_neg (by simp only [abs_zero]; linarith)]
  have hpsi2 : rhumbDestPsi ⟨0, 0, 6371⟩ 0 0 = 0 := by
    unfold rhumbDestPsi
    rw [hphi2]
    norm_num [toRadians]
  constructor
  · exact c6_rhumb_q_threshold.2.2.1 ⟨0, 0, 6371⟩ ⟨0, 0, 6371⟩ (by rw [hpsi1]; norm_num)
  · exact c6_rhumb_q_threshold.2.2.2.2 ⟨0, 0, 6371⟩ 0 0 (by rw [hpsi2]; norm_num)

theorem jsRemQ_eq_fract_mul (a b : ℚ) (ha : 0 ≤ a) (hb : 0 < b) :
    jsRemQ a b = b * Int.fract (a / b) := by
  have hdiv : 0 ≤ a / b := div_nonneg ha hb.le
  rw [jsRemQ, jsTruncQ, if_pos hdiv, Int.fract]
  have hb' : b ≠ 0 := ne_of_gt hb
  field_simp

theorem jsRemQ_nonneg (a b : ℚ) (ha : 0 ≤ a) (hb : 0 < b) : 0 ≤ jsRemQ a b := by
  rw [jsRemQ_eq_fract_mul a b ha hb]
  exact mul_nonneg hb.le (Int.fract_nonneg _)

theorem jsRemQ_lt (a b : ℚ) (ha : 0 ≤ a) (hb : 0 < b) : jsRemQ a b < b := by
  rw [jsRemQ_eq_fract_mul a b ha hb]
  calc b * Int.fract (a / b) < b * 1 :=
        mul_lt_mul_of_pos_left (Int.fract_lt_one _) hb
    _ = b := mul_one b

/-! ## Bridging the rational codec to
integer computation (`Rat` arithmetic is `@[irreducible]`, so concrete
rational renderings are established through these lemmas rather than by
kernel evaluation) -/

theorem ceil_eval {x : ℚ} {z : ℤ} (h : ⌊-x⌋ = -z) : ⌈x⌉ = z := by
  have h2 : ⌊-x⌋ = -⌈x⌉ := Int.floor_neg
  omega

theorem floorToNat_div (N M : ℕ) : (⌊(N : ℚ) / (M : ℚ)⌋).toNat = N / M := by
  rw [Rat.floor_natCast_div_natCast, ← Int.natCast_div]
  exact Int.toNat_natCast _

theorem fixedVal_div3600 (v : ℚ) (dp : ℕ) :
    (⌊fixedVal v dp / (3600 : ℚ)⌋).toNat = roundHU (v * 10 ^ dp) / (3600 * 10 ^ dp) := by
  have h1 : fixedVal v dp / (3600 : ℚ) =
      ((roundHU (v * 10 ^ dp) : ℕ) : ℚ) / (((3600 * 10 ^ dp : ℕ)) : ℚ) := by
    rw [fixedVal, div_div]
    congr 1
    push_cast
    ring
  rw [h1, floorToNat_div]

theorem fixedVal_div60 (v : ℚ) (dp : ℕ) :
    (⌊fixedVal v dp / (60 : ℚ)⌋).toNat = roundHU (v * 10 ^ dp) / (60 * 10 ^ dp) := by
  have h1 : fixedVal v dp / (60 : ℚ) =
      ((roundHU (v * 10 ^ dp) : ℕ) : ℚ) / (((60 * 10 ^ dp : ℕ)) : ℚ) := by
    rw [fixedVal, div_div]
    congr 1
    push_cast
    ring
  rw [h1, floorToNat_div]

theorem fixedVal_nonneg (v : ℚ) (dp : ℕ) : 0 ≤ fixedVal v dp := by
  rw [fixedVal]
  positivity

theorem jsRemQ_fixedVal (v : ℚ) (dp : ℕ) :
    jsRemQ (fixedVal v dp) 60 =
      ((roundHU (v * 10 ^ dp) % (60 * 10 ^ dp) : ℕ) : ℚ) / 10 ^ dp := by
  have hnn : (0:ℚ) ≤ fixedVal v dp / 60 :=
    div_nonneg (fixedVal_nonneg v dp) (by norm_num)
  rw [jsRemQ, jsTruncQ, if_pos hnn]
  have hfl : ⌊fixedVal v dp / 60⌋ = ((roundHU (v * 10 ^ dp) / (60 * 10 ^ dp) : ℕ) : ℤ) := by
    have h1 : fixedVal v dp / (60 : ℚ) =
        ((roundHU (v * 10 ^ dp) : ℕ) : ℚ) / (((60 * 10 ^ dp : ℕ)) : ℚ) := by
      rw [fixedVal, div_div]
      congr 1
      push_cast
      ring
    rw [h1, Rat.floor_natCast_div_natCast, ← Int.natCast_div]
  rw [hfl, fixedVal, Int.cast_natCast]
  have hdm := Nat.div_add_mod (roundHU (v * 10 ^ dp)) (60 * 10 ^ dp)
  have hq : ((60 * 10 ^ dp : ℕ) : ℚ) * ((roundHU (v * 10 ^ dp) / (60 * 10 ^ dp) : ℕ) : ℚ) +
      ((roundHU (v * 10 ^ dp) % (60 * 10 ^ dp) : ℕ) : ℚ) = (roundHU (v * 10 ^ dp) : ℚ) := by
    exact_mod_cast congrArg (fun n : ℕ => (n : ℚ)) hdm
  have hpow : ((10:ℚ)) ^ dp ≠ 0 := by positivity
  push_cast at hq
  rw [eq_div_iff hpow]
  field_simp
  linarith

theorem floor_add_half_self (m : ℕ) : ⌊(m : ℚ) + 1/2⌋ = m := by
  rw [Int.floor_eq_iff]
  constructor
  · push_cast
    linarith
  · push_cast
    linarith

theorem jsToFixed_of_scaled (m dp : ℕ) :
    jsToFixed ((m : ℚ) / 10 ^ dp) dp = renderFixed m dp := by
  rw [jsToFixed]
  congr 1
  have h1 : ((m:ℚ) / 10 ^ dp) * 10 ^ dp = (m : ℚ) := by
    field_simp
  rw [roundHU, h1, floor_add_half_self]
  simp

theorem scaled_lt_ten_iff (m dp : ℕ) :
    ((m : ℚ) / 10 ^ dp < 10) ↔ m < 10 * 10 ^ dp := by
  rw [div_lt_iff₀ (by positivity : (0:ℚ) < 10 ^ dp)]
  constructor
  · intro h
    exact_mod_cast h
  · intro h
    exact_mod_cast h

/-- The `dms` branch of `Geo.toDMS` computes exactly the integer
deg/min/sec decomposition of the scaled rounded value
`N = roundHU(|deg| * 3600 * 10^dp)`. -/
theorem toDMSQ_dms_eval (x : ℚ) (dp : ℕ) :
    toDMSQ x (some Fmt.dms) (some dp) = dmsRender (roundHU (|x| * 3600 * 10 ^ dp)) dp := by
  have hd := fixedVal_div3600 (|x| * 3600) dp
  have hm := fixedVal_div60 (|x| * 3600) dp
  have hs := jsRemQ_fixedVal (|x| * 3600) dp
  simp only [toDMSQ, Option.getD_some, dmsRender]
  rw [hd, hm, hs, jsToFixed_of_scaled,
    if_congr (scaled_lt_ten_iff (roundHU (|x| * 3600 * 10 ^ dp) % (60 * 10 ^ dp)) dp) rfl rfl]

/-! ## C1, C7, C8: codec error handling and bearing formatting -/

/-- C1 (code bug).  `Geo.toDMS` raises `TypeError` exactly on object inputs,
but `Geo.parseDMS` never raises at all: its guard (line 458) tests `typeof
deg`, where `deg` is the function's own hoisted, still-undefined local — the
parameter is `dmsStr` — so an object input is silently stringified and parsed
to NaN, contradicting the function's own `@throws` documentation (line 455). -/
theorem c1_parse_guard_dead :
    parseDMS JSVal.obj = Except.ok none ∧
    (∀ v : JSVal, ∀ e : TypeErr, parseDMS v ≠ Except.error e) ∧
    (∀ v : JSVal, ∀ format : Option Fmt, ∀ dp : Option ℕ,
      (∃ e, toDMSVal v format dp = Except.error e) ↔ v = JSVal.obj) := by
  refine ⟨rfl, ?_, ?_⟩
  · intro v e
    cases v <;> simp [parseDMS, typeofHoistedDeg]
  · intro v format dp
    constructor
    · rintro ⟨e, he⟩
      cases v
      · simp [toDMSVal, jsTypeof] at he
      · simp [toDMSVal, jsTypeof] at he
      · rfl
    · rintro rfl
      exact ⟨TypeErr.typeError, rfl⟩

/-- C8.  On string inputs `Geo.parseDMS` never raises, and it returns the NaN
sentinel when the processed field list is empty (`[]` or `['']`), has more
than 3 fields, or contains a field that does not coerce to a number. -/
theorem c8_parse_nan_contract :
    (∀ s : List Char, parseDMS (JSVal.str s) = Except.ok (parseDMSStr s)) ∧
    (∀ s : List Char, 3 < (parseFields s).length → parseDMSStr s = none) ∧
    (∀ s : List Char, (∃ f ∈ parseFields s, fieldNumber f = none) →
      parseDMSStr s = none) ∧
    (∀ s : List Char, parseFields s = [] ∨ parseFields s = [[]] →
      parseDMSStr s = none) := by
  refine ⟨fun s => rfl, ?_, ?_, ?_⟩
  · intro s h
    unfold parseDMSStr
    rcases hL : parseFields s with _ | ⟨a, _ | ⟨b, _ | ⟨c, _ | ⟨d, t⟩⟩⟩⟩ <;>
      rw [hL] at h <;> simp at h ⊢
  · intro s hf
    obtain ⟨f, hmem, hnone⟩ := hf
    unfold parseDMSStr
    rcases hL : parseFields s with _ | ⟨a, _ | ⟨b, _ | ⟨c, _ | ⟨d, t⟩⟩⟩⟩ <;>
      rw [hL] at hmem
    · simp at hmem
    · -- one field
      rw [List.mem_singleton] at hmem
      subst hmem
      by_cases hmt : f = []
      · rw [if_pos (Or.inr (by rw [hmt]))]
      · rw [if_neg (by simp [hmt])]
        simp [hnone]
    · -- two fields
      rw [if_neg (by simp)]
      rcases List.mem_cons.mp hmem with rfl | hmem
      · simp [hnone]
      · rw [List.mem_singleton] at hmem
        subst hmem
        cases hfa : fieldNumber a <;> simp [hfa, hnone]
    · -- three fields
      rw [if_neg (by simp)]
      rcases List.mem_cons.mp hmem with rfl | hmem
      · simp [hnone]
      · rcases List.mem_cons.mp hmem with rfl | hmem
        · cases hfa : fieldNumber a <;> simp [hfa, hnone]
        · rw [List.mem_singleton] at hmem
          subst hmem
          cases hfa : fieldNumber a <;> cases hfb : fieldNumber b <;>
            simp [hfa, hfb, hnone]
    · -- four or more fields
      rw [if_neg (by simp)]
  · intro s h
    unfold parseDMSStr
    rw [if_pos h]

/-- Witness for C8: a four-field string, a string with a non-numeric field,
and a separator-only string all parse to the NaN sentinel. -/
theorem c8_witness :
    parseDMSStr ("1 2 3 4".toList) = none ∧
    parseDMSStr ("12.3.4°5′6″".toList) = none ∧
    parseDMSStr ("°".toList) = none := by
  refine ⟨c8_parse_nan_contract.2.1 _ (by decide),
    c8_parse_nan_contract.2.2.1 _ ⟨"12.3.4".toList, by decide, by decide⟩,
    c8_parse_nan_contract.2.2.2 _ (by decide)⟩

/-- If the three-character pattern `360` occurs nowhere in the string,
`replace('360', '0')` leaves it unchanged. -/
theorem replace360_of_not_infix :
    ∀ l : List Char, ¬ (['3', '6', '0'] <:+: l) → replace360 l = l
  | [], _ => rfl
  | [_], _ => rfl
  | [_, _], _ => rfl
  | c :: d :: e :: t, h => by
    have hcde : ¬(c = '3' ∧ d = '6' ∧ e = '0') := by
      rintro ⟨rfl, rfl, rfl⟩
      exact h ⟨[], t, rfl⟩
    have ht : ¬ (['3', '6', '0'] <:+: d :: e :: t) := by
      rintro ⟨u, v, huv⟩
      exact h ⟨c :: u, v, by rw [List.cons_append, List.cons_append, huv]⟩
    rw [replace360, if_neg hcde, replace360_of_not_infix (d :: e :: t) ht]

/-- C7 (amended).  `Geo.toBrng` normalises by `(deg+360) % 360` with the
JavaScript remainder, which lands in `[0, 360)` only for inputs `deg ≥ -360`
(below that the remainder stays negative and its absolute value is rendered);
the `360`-to-`0` patch is a textual `replace` of the first occurrence of the
substring `360`, which leaves the string unchanged whenever `360` does not
occur in it, but can also alter a fractional field containing the digits 360
(e.g. seconds `05.360` at `dp = 3`), not only a rendered value of exactly
360. -/
theorem c7_toBrng_normalisation (deg : ℚ) (format : Option Fmt) (dp? : Option ℕ) :
    (-360 ≤ deg → 0 ≤ jsRemQ (deg + 360) 360 ∧ jsRemQ (deg + 360) 360 < 360) ∧
    (toBrngQ deg format dp? = replace360 (toDMSQ (jsRemQ (deg + 360) 360) format dp?)) ∧
    (∀ l : List Char, ¬ (['3', '6', '0'] <:+: l) → replace360 l = l) := by
  refine ⟨fun h => ?_, rfl, replace360_of_not_infix⟩
  have ha : (0:ℚ) ≤ deg + 360 := by linarith
  exact ⟨jsRemQ_nonneg _ _ ha (by norm_num), jsRemQ_lt _ _ ha (by norm_num)⟩

/-- C7 fails as stated: an input below `-360` is left at a negative remainder
(`-700 ↦ -340`, rendered `340°00′00″` instead of a value in `[0,360)`), and
the patch can alter content other than a rendered 360: at `dp = 3` the
bearing `67/45000` renders as `000°00′05.360″` but `toBrng` returns
`000°00′05.0″`, the seconds field corrupted by the replace. -/
theorem c7_counterexample :
    jsRemQ ((-700 : ℚ) + 360) 360 = -340 ∧
    toBrngQ (-700) (some Fmt.dms) none = "340°00′00″".toList ∧
    toBrngQ (67/45000) (some Fmt.dms) (some 3) = "000°00′05.0″".toList ∧
    toDMSQ (jsRemQ ((67/45000 : ℚ) + 360) 360) (some Fmt.dms) (some 3) =
      "000°00′05.360″".toList := by
  have hrem1 : jsRemQ ((-700 : ℚ) + 360) 360 = -340 := by
    rw [jsRemQ, jsTruncQ, if_neg (by norm_num)]
    have hc : ⌈((-700 : ℚ) + 360) / 360⌉ = 0 := ceil_eval (by norm_num)
    rw [hc]
    norm_num
  have hrem2 : jsRemQ ((67/45000 : ℚ) + 360) 360 = 67/45000 := by
    rw [jsRemQ, jsTruncQ, if_pos (by norm_num)]
    have hf : ⌊((67/45000 : ℚ) + 360) / 360⌋ = 1 := by norm_num
    rw [hf]
    norm_num
  have hN1 : roundHU (|(-340 : ℚ)| * 3600 * 10 ^ 0) = 1224000 := by
    have h1 : ⌊|(-340 : ℚ)| * 3600 * 10 ^ 0 + 1/2⌋ = 1224000 := by norm_num
    rw [roundHU, h1]
    rfl
  have hN2 : roundHU (|(67/45000 : ℚ)| * 3600 * 10 ^ 3) = 5360 := by
    have habs : |(67/45000 : ℚ)| = 67/45000 := abs_of_nonneg (by norm_num)
    have h1 : ⌊|(67/45000 : ℚ)| * 3600 * 10 ^ 3 + 1/2⌋ = 5360 := by
      rw [habs]
      norm_num
    rw [roundHU, h1]
    rfl
  refine ⟨hrem1, ?_, ?_, ?_⟩
  · have hb : toBrngQ (-700) (some Fmt.dms) none =
        replace360 (toDMSQ (jsRemQ ((-700 : ℚ) + 360) 360) (some Fmt.dms) none) := rfl
    have hdp : toDMSQ (-340 : ℚ) (some Fmt.dms) none =
        toDMSQ (-340 : ℚ) (some Fmt.dms) (some 0) := rfl
    rw [hb, hrem1, hdp, toDMSQ_dms_eval, hN1]
    decide
  · have hb : toBrngQ (67/45000) (some Fmt.dms) (some 3) =
        replace360 (toDMSQ (jsRemQ ((67/45000 : ℚ) + 360) 360) (some Fmt.dms) (some 3)) := rfl
    rw [hb, hrem2, toDMSQ_dms_eval, hN2]
    decide
  · rw [hrem2, toDMSQ_dms_eval, hN2]
    decide

/-- Witness for C7: the amended theorem applied at `deg = 0` and at a string
without the pattern. -/
theorem c7_witness :
    (0 ≤ jsRemQ ((0:ℚ) + 360) 360 ∧ jsRemQ ((0:ℚ) + 360) 360 < 360) ∧
    replace360 ("123".toList) = "123".toList :=
  ⟨(c7_toBrng_normalisation 0 none none).1 (by norm_num),
   (c7_toBrng_normalisation 0 none none).2.2 _ (by decide)⟩

theorem digitChar_isDigit (n : ℕ) : (digitChar n).isDigit = true := by
  unfold digitChar
  split_ifs <;> rfl

theorem charVal_digitChar (n : ℕ) (h : n < 10) : charVal (digitChar n) = n := by
  interval_cases n <;> rfl

theorem digitsVal_append_singleton (l : List Char) (c : Char) :
    digitsVal (l ++ [c]) = 10 * digitsVal l + charVal c := by
  unfold digitsVal
  rw [List.foldl_append]
  rfl

theorem natDigitsAux_spec (fuel : ℕ) :
    ∀ n : ℕ, n < fuel →
      digitsVal (natDigitsAux fuel n) = n ∧ AllDigits (natDigitsAux fuel n) ∧
        natDigitsAux fuel n ≠ [] := by
  induction fuel with
  | zero => intro n h; omega
  | succ fuel ih =>
    intro n h
    rw [natDigitsAux]
    by_cases h10 : n < 10
    · rw [if_pos h10]
      refine ⟨?_, ?_, by simp⟩
      · show 10 * 0 + charVal (digitChar n) = n
        rw [charVal_digitChar n h10]
        omega
      · intro c hc
        rw [List.mem_singleton] at hc
        subst hc
        exact digitChar_isDigit n
    · rw [if_neg h10]
      have hdiv : n / 10 < fuel := by
        have h1 : n / 10 < n := Nat.div_lt_self (by omega) (by omega)
        omega
      obtain ⟨hval, hdig, _⟩ := ih (n / 10) hdiv
      refine ⟨?_, ?_, by simp⟩
      · rw [digitsVal_append_singleton, hval, charVal_digitChar _ (Nat.mod_lt _ (by omega))]
        omega
      · intro c hc
        rw [List.mem_append] at hc
        rcases hc with hc | hc
        · exact hdig c hc
        · rw [List.mem_singleton] at hc
          subst hc
          exact digitChar_isDigit _

theorem digitsVal_natDigits (n : ℕ) : digitsVal (natDigits n) = n :=
  (natDigitsAux_spec (n + 1) n (by omega)).1

theorem natDigits_allDigits (n : ℕ) : AllDigits (natDigits n) :=
  (natDigitsAux_spec (n + 1) n (by omega)).2.1

theorem natDigits_ne_nil (n : ℕ) : natDigits n ≠ [] :=
  (natDigitsAux_spec (n + 1) n (by omega)).2.2

theorem natDigitsAux_length (fuel : ℕ) :
    ∀ n k : ℕ, n < fuel → n < 10 ^ k → 1 ≤ k → (natDigitsAux fuel n).length ≤ k := by
  induction fuel with
  | zero => intro n k h; omega
  | succ fuel ih =>
    intro n k h hk h1
    rw [natDigitsAux]
    by_cases h10 : n < 10
    · rw [if_pos h10]
      simpa using h1
    · rw [if_neg h10]
      rw [List.length_append]
      have hk2 : 2 ≤ k := by
        by_contra hc
        have : k = 1 := by omega
        subst this
        simp at hk
        omega
      have hdivfuel : n / 10 < fuel := by
        have : n / 10 < n := Nat.div_lt_self (by omega) (by omega)
        omega
      have hdivpow : n / 10 < 10 ^ (k - 1) := by
        have hlt : n < 10 ^ (k - 1) * 10 := by
          have : 10 ^ (k - 1) * 10 = 10 ^ k := by
            rw [← pow_succ]
            congr 1
            omega
          omega
        omega
      have := ih (n / 10) (k - 1) hdivfuel hdivpow (by omega)
      simp only [List.length_singleton]
      omega

theorem natDigits_length_le (n k : ℕ) (h : n < 10 ^ k) (h1 : 1 ≤ k) :
    (natDigits n).length ≤ k :=
  natDigitsAux_length (n + 1) n k (by omega) h h1

theorem digitsVal_cons_zero (l : List Char) : digitsVal ('0' :: l) = digitsVal l := rfl

theorem digitsVal_replicate_zero (k : ℕ) (l : List Char) :
    digitsVal (List.replicate k '0' ++ l) = digitsVal l := by
  induction k with
  | zero => rfl
  | succ k ih =>
    rw [List.replicate_succ, List.cons_append, digitsVal_cons_zero]
    exact ih

/-! ### Character-class facts -/

theorem digit_ne_of (c : Char) (h : c.isDigit = true) (d : Char)
    (hd : d.isDigit = false) : c ≠ d := by
  intro hc
  rw [hc, hd] at h
  cases h

theorem digit_isFieldChar (c : Char) (h : c.isDigit = true) : isFieldChar c = true := by
  unfold isFieldChar
  rw [h]
  rfl

theorem digit_not_spc (c : Char) (h : c.isDigit = true) : isSpc c = false := by
  unfold isSpc
  have h32 := digit_ne_of c h ' ' (by decide)
  have h9 := digit_ne_of c h '\t' (by decide)
  have h10 := digit_ne_of c h '\n' (by decide)
  have h13 := digit_ne_of c h '\r' (by decide)
  have h11 := digit_ne_of c h '\x0b' (by decide)
  have h12 := digit_ne_of c h '\x0c' (by decide)
  simp [beq_eq_false_iff_ne, h32, h9, h10, h13, h11, h12]

theorem digit_ne_dot (c : Char) (h : c.isDigit = true) : c ≠ '.' :=
  digit_ne_of c h '.' (by decide)

theorem digit_ne_dash (c : Char) (h : c.isDigit = true) : c ≠ '-' :=
  digit_ne_of c h '-' (by decide)

theorem dot_not_mem_of_allDigits (l : List Char) (h : AllDigits l) : '.' ∉ l := by
  intro hmem
  exact digit_ne_dot '.' (h '.' hmem) rfl

/-! ### `splitAtDot` and `fieldNumber` on well-formed fields -/

theorem splitAtDot_no_dot (l : List Char) (h : '.' ∉ l) : splitAtDot l = (l, []) := by
  induction l with
  | nil => rfl
  | cons c t ih =>
    rw [splitAtDot, if_neg (by intro hc; exact h (by rw [hc]; exact List.mem_cons_self _ _))]
    rw [ih (fun hm => h (List.mem_cons_of_mem c hm))]

theorem splitAtDot_append (l1 l2 : List Char) (h : '.' ∉ l1) :
    splitAtDot (l1 ++ '.' :: l2) = (l1, l2) := by
  induction l1 with
  | nil => rw [List.nil_append, splitAtDot, if_pos rfl]
  | cons c t ih =>
    rw [List.cons_append, splitAtDot,
      if_neg (by intro hc; exact h (by rw [hc]; exact List.mem_cons_self _ _))]
    rw [ih (fun hm => h (List.mem_cons_of_mem c hm))]

theorem fieldNumber_of_digits (l : List Char) (h : AllDigits l) (hne : l ≠ []) :
    fieldNumber l = some ((digitsVal l : ℚ)) := by
  have hdot := dot_not_mem_of_allDigits l h
  rw [fieldNumber, if_neg hne, if_pos]
  · rw [splitAtDot_no_dot l hdot]
    simp [digitsVal]
  · refine ⟨fun c hc => Or.inl (h c hc), ?_, ?_⟩
    · rw [List.count_eq_zero.mpr hdot]
      omega
    · intro hc
      rw [hc] at hdot
      exact hdot (List.mem_singleton.mpr rfl)

theorem fieldNumber_renderFixed (n dp : ℕ) :
    fieldNumber (renderFixed n dp) = some ((n : ℚ) / 10 ^ dp) := by
  by_cases hdp : dp = 0
  · subst hdp
    rw [renderFixed, if_pos rfl,
      fieldNumber_of_digits _ (natDigits_allDigits n) (natDigits_ne_nil n),
      digitsVal_natDigits]
    norm_num
  · rw [renderFixed, if_neg hdp]
    have hint := natDigits_allDigits (n / 10 ^ dp)
    have hintne := natDigits_ne_nil (n / 10 ^ dp)
    have hfrac0 := natDigits_allDigits (n % 10 ^ dp)
    have hfraclen : (natDigits (n % 10 ^ dp)).length ≤ dp :=
      natDigits_length_le _ dp (Nat.mod_lt _ (by positivity)) (by omega)
    have hfrac : AllDigits (List.replicate (dp - (natDigits (n % 10 ^ dp)).length) '0' ++
        natDigits (n % 10 ^ dp)) := by
      intro c hc
      rw [List.mem_append] at hc
      rcases hc with hc | hc
      · rw [List.eq_of_mem_replicate hc]
        rfl
      · exact hfrac0 c hc
    have hdotint := dot_not_mem_of_allDigits _ hint
    have hdotfrac := dot_not_mem_of_allDigits _ hfrac
    rw [fieldNumber, if_neg (by simp [hintne]), if_pos, splitAtDot_append _ _ hdotint]
    · rw [digitsVal_replicate_zero, digitsVal_natDigits, digitsVal_natDigits,
        List.length_append, List.length_replicate]
      have hlen : dp - (natDigits (n % 10 ^ dp)).length + (natDigits (n % 10 ^ dp)).length
          = dp := by omega
      rw [hlen]
      have hdm := Nat.div_add_mod n (10 ^ dp)
      have hq : ((10 ^ dp : ℕ) : ℚ) * ((n / 10 ^ dp : ℕ) : ℚ) + ((n % 10 ^ dp : ℕ) : ℚ)
          = (n : ℚ) := by
        exact_mod_cast congrArg (fun k : ℕ => (k : ℚ)) hdm
      push_cast at hq ⊢
      have hpow : ((10:ℚ)) ^ dp ≠ 0 := by positivity
      field_simp
      linarith
    · refine ⟨?_, ?_, ?_⟩
      · intro c hc
        rw [List.mem_append] at hc
        rcases hc with hc | hc
        · exact Or.inl (hint c hc)
        · rw [List.mem_cons] at hc
          rcases hc with rfl | hc
          · exact Or.inr rfl
          · exact Or.inl (hfrac c hc)
      · have : List.count '.' (natDigits (n / 10 ^ dp) ++ '.' ::
            (List.replicate (dp - (natDigits (n % 10 ^ dp)).length) '0' ++
              natDigits (n % 10 ^ dp))) =
            List.count '.' (natDigits (n / 10 ^ dp)) + List.count '.' ('.' ::
            (List.replicate (dp - (natDigits (n % 10 ^ dp)).length) '0' ++
              natDigits (n % 10 ^ dp))) := List.count_append _ _ _
        rw [this, List.count_cons_self, List.count_eq_zero.mpr hdotint,
          List.count_eq_zero.mpr hdotfrac]
      · intro hc
        have : '.' ∈ natDigits (n / 10 ^ dp) ++ '.' ::
            (List.replicate (dp - (natDigits (n % 10 ^ dp)).length) '0' ++
              natDigits (n % 10 ^ dp)) := by
          rw [List.mem_append]
          exact Or.inr (List.mem_cons_self _ _)
        rw [hc] at this
        rw [List.mem_singleton] at this
        have hne2 : natDigits (n / 10 ^ dp) ++ '.' ::
            (List.replicate (dp - (natDigits (n % 10 ^ dp)).length) '0' ++
              natDigits (n % 10 ^ dp)) ≠ ['.'] := by
          intro heq
          have hlen := congrArg List.length heq
          rw [List.length_append, List.length_cons, List.length_singleton] at hlen
          have hpos : 0 < (natDigits (n / 10 ^ dp)).length := List.length_pos.mpr hintne
          omega
        exact hne2 hc

theorem fieldNumber_cons_zero (l : List Char) (q : ℚ) (hne : l ≠ [])
    (h : fieldNumber l = some q) : fieldNumber ('0' :: l) = some q := by
  rw [fieldNumber, if_neg hne] at h
  by_cases hcond : (∀ c ∈ l, c.isDigit = true ∨ c = '.') ∧
      List.count '.' l ≤ 1 ∧ l ≠ ['.']
  · rw [if_pos hcond] at h
    rw [fieldNumber, if_neg (by simp)]
    rw [if_pos]
    · have hsp : splitAtDot ('0' :: l) = ('0' :: (splitAtDot l).1, (splitAtDot l).2) := by
        rw [splitAtDot, if_neg (by decide)]
      rw [hsp]
      simp only [digitsVal_cons_zero]
      exact h
    · refine ⟨?_, ?_, ?_⟩
      · intro c hc
        rw [List.mem_cons] at hc
        rcases hc with rfl | hc
        · exact Or.inl rfl
        · exact hcond.1 c hc
      · rw [List.count_cons_of_ne (by decide)]
        exact hcond.2.1
      · intro heq
        cases heq
  · rw [if_neg hcond] at h
    cases h

/-! ### `jsSplit`, `trimChars` and the strips on the rendered string -/

/-- A run of field characters followed by a separator emits one field. -/
theorem jsSplitAux_field_sep (f : List Char) (hf : ∀ c ∈ f, isFieldChar c = true) :
    ∀ (acc : List Char) (c : Char), isFieldChar c = false → ∀ rest : List Char,
      jsSplitAux false acc (f ++ c :: rest) = (acc.reverse ++ f) :: jsSplitAux true [] rest := by
  induction f with
  | nil =>
    intro acc c hc rest
    rw [List.nil_append, jsSplitAux, if_neg (by rw [hc]; intro h; cases h)]
    simp
  | cons a f ih =>
    intro acc c hc rest
    have ha : isFieldChar a = true := hf a (List.mem_cons_self _ _)
    rw [List.cons_append, jsSplitAux, if_pos ha,
      ih (fun x hx => hf x (List.mem_cons_of_mem a hx)) (a :: acc) c hc rest]
    simp

/-- In separator-skipping state, a nonempty run of field characters followed
by a separator emits that field. -/
theorem jsSplitAux_run_field_sep (f : List Char) (hne : f ≠ [])
    (hf : ∀ c ∈ f, isFieldChar c = true) (acc : List Char) (c : Char)
    (hc : isFieldChar c = false) (rest : List Char) :
    jsSplitAux true acc (f ++ c :: rest) = f :: jsSplitAux true [] rest := by
  match f, hne with
  | a :: f, _ =>
    have ha : isFieldChar a = true := hf a (List.mem_cons_self _ _)
    rw [List.cons_append, jsSplitAux, if_pos ha,
      jsSplitAux_field_sep f (fun x hx => hf x (List.mem_cons_of_mem a hx)) [a] c hc rest]
    simp

/-- Splitting the rendered `F1°F2′F3″` body gives the three fields plus the
trailing empty field produced by the final separator. -/
theorem jsSplit_render (f1 f2 f3 : List Char) (h1 : ∀ c ∈ f1, isFieldChar c = true)
    (h2 : ∀ c ∈ f2, isFieldChar c = true) (h3 : ∀ c ∈ f3, isFieldChar c = true)
    (hne2 : f2 ≠ []) (hne3 : f3 ≠ []) :
    jsSplit (f1 ++ '°' :: (f2 ++ '′' :: (f3 ++ ['″']))) = [f1, f2, f3, []] := by
  rw [jsSplit, jsSplitAux_field_sep f1 h1 [] '°' (by decide) _,
    jsSplitAux_run_field_sep f2 hne2 h2 [] '′' (by decide) _,
    jsSplitAux_run_field_sep f3 hne3 h3 [] '″' (by decide) []]
  rfl

theorem dropWhile_of_forall_neg (p : Char → Bool) (l : List Char)
    (h : ∀ c ∈ l, p c = false) : l.dropWhile p = l := by
  cases l with
  | nil => rfl
  | cons c t =>
    rw [List.dropWhile_cons, if_neg (by rw [h c (List.mem_cons_self _ _)]; intro hc; cases hc)]

theorem trimChars_of_no_space (s : List Char) (h : ∀ c ∈ s, isSpc c = false) :
    trimChars s = s := by
  rw [trimChars, dropWhile_of_forall_neg _ s h,
    dropWhile_of_forall_neg _ s.reverse (fun c hc => h c (List.mem_reverse.mp hc)),
    List.reverse_reverse]

theorem stripLeadMinus_of_head_ne (s : List Char) (h : ∀ c ∈ s, c ≠ '-') :
    stripLeadMinus s = s := by
  rw [stripLeadMinus, if_neg]
  intro hc
  cases s with
  | nil => cases hc
  | cons c t =>
    rw [List.head?_cons] at hc
    injection hc with hc2
    exact h c (List.mem_cons_self _ _) hc2

theorem stripCompass_concat (s : List Char) (c : Char) (hc : isCompass c = true) :
    stripCompass (s ++ [c]) = s := by
  rw [stripCompass, List.getLast?_concat]
  simp only [hc, if_true]
  rw [List.dropLast_concat]

/-! ### Structure of the rendered fields -/

theorem fieldChar_not_spc (c : Char) (h : isFieldChar c = true) : isSpc c = false := by
  unfold isFieldChar at h
  simp only [Bool.or_eq_true, beq_iff_eq] at h
  rcases h with (h2 | rfl) | rfl
  · exact digit_not_spc c h2
  · rfl
  · rfl

theorem fieldChar_ne_dash (c : Char) (h : isFieldChar c = true) : c ≠ '-' := by
  unfold isFieldChar at h
  simp only [Bool.or_eq_true, beq_iff_eq] at h
  rcases h with (h2 | rfl) | rfl
  · exact digit_ne_dash c h2
  · decide
  · decide

theorem padTo3_structure (d : ℕ) (h : d < 100) :
    ∃ f1, padTo3 d = '0' :: f1 ∧ f1 ≠ [] ∧ AllDigits f1 ∧ digitsVal f1 = d := by
  by_cases h10 : d < 10
  · rw [padTo3, if_pos h10]
    refine ⟨'0' :: natDigits d, rfl, by simp, ?_, ?_⟩
    · intro c hc
      rcases List.mem_cons.mp hc with rfl | hc
      · rfl
      · exact natDigits_allDigits d c hc
    · rw [digitsVal_cons_zero, digitsVal_natDigits]
  · rw [padTo3, if_neg h10, if_pos h]
    exact ⟨natDigits d, rfl, natDigits_ne_nil d, natDigits_allDigits d, digitsVal_natDigits d⟩

theorem padTo2_spec (m : ℕ) :
    AllDigits (padTo2 m) ∧ padTo2 m ≠ [] ∧ fieldNumber (padTo2 m) = some (m : ℚ) := by
  by_cases h10 : m < 10
  · rw [padTo2, if_pos h10]
    have hdig : AllDigits ('0' :: natDigits m) := by
      intro c hc
      rcases List.mem_cons.mp hc with rfl | hc
      · rfl
      · exact natDigits_allDigits m c hc
    refine ⟨hdig, by simp, ?_⟩
    rw [fieldNumber_of_digits _ hdig (by simp), digitsVal_cons_zero, digitsVal_natDigits]
  · rw [padTo2, if_neg h10]
    refine ⟨natDigits_allDigits m, natDigits_ne_nil m, ?_⟩
    rw [fieldNumber_of_digits _ (natDigits_allDigits m) (natDigits_ne_nil m),
      digitsVal_natDigits]

theorem renderFixed_fieldChars (n dp : ℕ) : ∀ c ∈ renderFixed n dp, isFieldChar c = true := by
  intro c hc
  rw [renderFixed] at hc
  by_cases hdp : dp = 0
  · rw [if_pos hdp] at hc
    exact digit_isFieldChar c (natDigits_allDigits n c hc)
  · rw [if_neg hdp] at hc
    rw [List.mem_append] at hc
    rcases hc with hc | hc
    · exact digit_isFieldChar c (natDigits_allDigits _ c hc)
    · rcases List.mem_cons.mp hc with rfl | hc
      · rfl
      · rw [List.mem_append] at hc
        rcases hc with hc | hc
        · rw [List.eq_of_mem_replicate hc]
          rfl
        · exact digit_isFieldChar c (natDigits_allDigits _ c hc)

theorem renderFixed_ne_nil (n dp : ℕ) : renderFixed n dp ≠ [] := by
  rw [renderFixed]
  by_cases hdp : dp = 0
  · rw [if_pos hdp]
    exact natDigits_ne_nil n
  · rw [if_neg hdp]
    intro h
    rw [List.append_eq_nil] at h
    exact natDigits_ne_nil _ h.1

/-- The seconds field of `dmsRender` (the possibly `'0'`-padded `toFixed`
rendering of `m / 10^dp`) consists of field characters, is nonempty, and
coerces back to exactly `m / 10^dp`. -/
theorem sfield_spec (m dp : ℕ) :
    (∀ c ∈ (if m < 10 * 10 ^ dp then '0' :: renderFixed m dp else renderFixed m dp),
      isFieldChar c = true) ∧
    (if m < 10 * 10 ^ dp then '0' :: renderFixed m dp else renderFixed m dp) ≠ [] ∧
    fieldNumber (if m < 10 * 10 ^ dp then '0' :: renderFixed m dp else renderFixed m dp) =
      some ((m : ℚ) / 10 ^ dp) := by
  by_cases hlt : m < 10 * 10 ^ dp
  · rw [if_pos hlt]
    refine ⟨?_, by simp, ?_⟩
    · intro c hc
      rcases List.mem_cons.mp hc with rfl | hc
      · rfl
      · exact renderFixed_fieldChars m dp c hc
    · exact fieldNumber_cons_zero _ _ (renderFixed_ne_nil m dp) (fieldNumber_renderFixed m dp)
  · rw [if_neg hlt]
    exact ⟨renderFixed_fieldChars m dp, renderFixed_ne_nil m dp, fieldNumber_renderFixed m dp⟩

/-! ### Parsing a rendered `F1°F2′F3″` string with a compass suffix -/

theorem parseDMSStr_three (s : List Char) (a b c : List Char)
    (h : parseFields s = [a, b, c]) :
    parseDMSStr s = (do
      let x ← fieldNumber a
      let y ← fieldNumber b
      let z ← fieldNumber c
      pure (if negTest s then -(x + y / 60 + z / 3600) else x + y / 60 + z / 3600)) := by
  unfold parseDMSStr
  rw [h, if_neg (by simp)]

theorem parseDMSStr_render (f1 f2 f3 : List Char) (sfx : Char) (v1 v2 v3 : ℚ)
    (hd1 : AllDigits f1) (hne1 : f1 ≠ [])
    (hf2 : ∀ c ∈ f2, isFieldChar c = true) (hne2 : f2 ≠ [])
    (hf3 : ∀ c ∈ f3, isFieldChar c = true) (hne3 : f3 ≠ [])
    (hv1 : fieldNumber f1 = some v1) (hv2 : fieldNumber f2 = some v2)
    (hv3 : fieldNumber f3 = some v3)
    (hsfx : sfx = 'N' ∨ sfx = 'S') :
    parseDMSStr (f1 ++ '°' :: (f2 ++ '′' :: (f3 ++ ['″'])) ++ [sfx]) =
      some (if sfx = 'S' then -(v1 + v2 / 60 + v3 / 3600)
            else v1 + v2 / 60 + v3 / 3600) := by
  have hmem : ∀ c ∈ f1 ++ '°' :: (f2 ++ '′' :: (f3 ++ ['″'])) ++ [sfx],
      c ∈ f1 ∨ c = '°' ∨ c ∈ f2 ∨ c = '′' ∨ c ∈ f3 ∨ c = '″' ∨ c = sfx := by
    intro c hc
    simp only [List.mem_append, List.mem_cons, List.mem_singleton] at hc
    tauto
  have hnospc : ∀ c ∈ f1 ++ '°' :: (f2 ++ '′' :: (f3 ++ ['″'])) ++ [sfx],
      isSpc c = false := by
    intro c hc
    rcases hmem c hc with h | h | h | h | h | h | h
    · exact digit_not_spc c (hd1 c h)
    · rw [h]; rfl
    · exact fieldChar_not_spc c (hf2 c h)
    · rw [h]; rfl
    · exact fieldChar_not_spc c (hf3 c h)
    · rw [h]; rfl
    · rcases hsfx with rfl | rfl <;> (rw [h]; rfl)
  have hnodash : ∀ c ∈ f1 ++ '°' :: (f2 ++ '′' :: (f3 ++ ['″'])) ++ [sfx], c ≠ '-' := by
    intro c hc
    rcases hmem c hc with h | h | h | h | h | h | h
    · exact digit_ne_dash c (hd1 c h)
    · rw [h]; decide
    · exact fieldChar_ne_dash c (hf2 c h)
    · rw [h]; decide
    · exact fieldChar_ne_dash c (hf3 c h)
    · rw [h]; decide
    · rcases hsfx with rfl | rfl <;> (rw [h]; decide)
  have htrim : trimChars (f1 ++ '°' :: (f2 ++ '′' :: (f3 ++ ['″'])) ++ [sfx]) =
      f1 ++ '°' :: (f2 ++ '′' :: (f3 ++ ['″'])) ++ [sfx] :=
    trimChars_of_no_space _ hnospc
  have hstrip1 : stripLeadMinus (f1 ++ '°' :: (f2 ++ '′' :: (f3 ++ ['″'])) ++ [sfx]) =
      f1 ++ '°' :: (f2 ++ '′' :: (f3 ++ ['″'])) ++ [sfx] :=
    stripLeadMinus_of_head_ne _ hnodash
  have hstrip2 : stripCompass (f1 ++ '°' :: (f2 ++ '′' :: (f3 ++ ['″'])) ++ [sfx]) =
      f1 ++ '°' :: (f2 ++ '′' :: (f3 ++ ['″'])) :=
    stripCompass_concat _ sfx (by rcases hsfx with rfl | rfl <;> rfl)
  have hsplit : jsSplit (f1 ++ '°' :: (f2 ++ '′' :: (f3 ++ ['″']))) = [f1, f2, f3, []] :=
    jsSplit_render f1 f2 f3 (fun c hc => digit_isFieldChar c (hd1 c hc)) hf2 hf3 hne2 hne3
  have hpf : parseFields (f1 ++ '°' :: (f2 ++ '′' :: (f3 ++ ['″'])) ++ [sfx]) =
      [f1, f2, f3] := by
    rw [parseFields]
    rw [htrim, hstrip1, hstrip2, hsplit]
    have hlast : ([f1, f2, f3, ([] : List Char)]).getLast? = some [] := rfl
    rw [if_pos hlast]
    rfl
  have hhead : (f1 ++ '°' :: (f2 ++ '′' :: (f3 ++ ['″'])) ++ [sfx]).head? ≠ some '-' := by
    match f1, hne1 with
    | a :: f1, _ =>
      rw [List.cons_append, List.cons_append, List.head?_cons]
      intro hc
      injection hc with hc2
      exact digit_ne_dash a (hd1 a (List.mem_cons_self _ _)) hc2
  have hlast : (f1 ++ '°' :: (f2 ++ '′' :: (f3 ++ ['″'])) ++ [sfx]).getLast? = some sfx :=
    List.getLast?_concat _
  have hbeqhead : ((f1 ++ '°' :: (f2 ++ '′' :: (f3 ++ ['″'])) ++ [sfx]).head? ==
      some '-') = false := beq_eq_false_iff_ne.mpr hhead
  have hthree := parseDMSStr_three _ f1 f2 f3 hpf
  rw [hthree, hv1, hv2, hv3]
  rcases hsfx with rfl | rfl
  · have hneg : negTest (f1 ++ '°' :: (f2 ++ '′' :: (f3 ++ ['″'])) ++ ['N']) = false := by
      rw [negTest, htrim, hlast, hbeqhead]
      rfl
    simp only [hneg]
    simp
  · have hneg : negTest (f1 ++ '°' :: (f2 ++ '′' :: (f3 ++ ['″'])) ++ ['S']) = true := by
      rw [negTest, htrim, hlast, hbeqhead]
      rfl
    simp only [hneg]
    simp

/-! ### Recombination and rounding bounds -/

/-- The parsed `d + m/60 + s/3600` recombines to exactly the rounded seconds
value over 3600. -/
theorem dms_recombine (N dp : ℕ) :
    ((N / (3600 * 10 ^ dp) : ℕ) : ℚ) + ((N / (60 * 10 ^ dp) % 60 : ℕ) : ℚ) / 60 +
      (((N % (60 * 10 ^ dp) : ℕ) : ℚ) / 10 ^ dp) / 3600 = (N : ℚ) / 10 ^ dp / 3600 := by
  have e1 := Nat.div_add_mod N (60 * 10 ^ dp)
  have e2 := Nat.div_add_mod (N / (60 * 10 ^ dp)) 60
  have e3 : N / (60 * 10 ^ dp) / 60 = N / (3600 * 10 ^ dp) := by
    rw [Nat.div_div_eq_div_mul]
    congr 1
    ring
  rw [e3] at e2
  have hNat : 3600 * 10 ^ dp * (N / (3600 * 10 ^ dp)) +
      60 * 10 ^ dp * (N / (60 * 10 ^ dp) % 60) + N % (60 * 10 ^ dp) = N := by
    calc 3600 * 10 ^ dp * (N / (3600 * 10 ^ dp)) +
          60 * 10 ^ dp * (N / (60 * 10 ^ dp) % 60) + N % (60 * 10 ^ dp)
        = 60 * 10 ^ dp * (60 * (N / (3600 * 10 ^ dp)) + N / (60 * 10 ^ dp) % 60) +
          N % (60 * 10 ^ dp) := by ring
      _ = 60 * 10 ^ dp * (N / (60 * 10 ^ dp)) + N % (60 * 10 ^ dp) := by rw [e2]
      _ = N := e1
  have hq : (3600 : ℚ) * 10 ^ dp * ((N / (3600 * 10 ^ dp) : ℕ) : ℚ) +
      (60 : ℚ) * 10 ^ dp * ((N / (60 * 10 ^ dp) % 60 : ℕ) : ℚ) +
      ((N % (60 * 10 ^ dp) : ℕ) : ℚ) = (N : ℚ) := by
    exact_mod_cast congrArg (fun k : ℕ => (k : ℚ)) hNat
  have hpow : ((10:ℚ)) ^ dp ≠ 0 := by positivity
  have hne : (3600 : ℚ) * 10 ^ dp ≠ 0 := by positivity
  apply mul_right_cancel₀ hne
  have lhs_eq : (((N / (3600 * 10 ^ dp) : ℕ) : ℚ) +
      ((N / (60 * 10 ^ dp) % 60 : ℕ) : ℚ) / 60 +
      (((N % (60 * 10 ^ dp) : ℕ) : ℚ) / 10 ^ dp) / 3600) * (3600 * 10 ^ dp) =
      (3600 : ℚ) * 10 ^ dp * ((N / (3600 * 10 ^ dp) : ℕ) : ℚ) +
      (60 : ℚ) * 10 ^ dp * ((N / (60 * 10 ^ dp) % 60 : ℕ) : ℚ) +
      ((N % (60 * 10 ^ dp) : ℕ) : ℚ) := by
    field_simp
    ring
  have rhs_eq : ((N : ℚ) / 10 ^ dp / 3600) * (3600 * 10 ^ dp) = (N : ℚ) := by
    field_simp
    left
    ring
  rw [lhs_eq, rhs_eq]
  exact hq

/-- `toFixed` rounding is within half an ulp. -/
theorem roundHU_bound (y : ℚ) (hy : 0 ≤ y) : |((roundHU y : ℕ) : ℚ) - y| ≤ 1/2 := by
  rw [roundHU]
  have h0 : (0:ℤ) ≤ ⌊y + 1/2⌋ := Int.floor_nonneg.mpr (by linarith)
  have hcast : ((⌊y + 1/2⌋.toNat : ℕ) : ℚ) = ((⌊y + 1/2⌋ : ℤ) : ℚ) := by
    exact_mod_cast congrArg (fun z : ℤ => (z : ℚ)) (Int.toNat_of_nonneg h0)
  rw [hcast, abs_le]
  constructor
  · have := Int.lt_floor_add_one (y + 1/2)
    push_cast at this ⊢
    linarith
  · have := Int.floor_le (y + 1/2)
    push_cast at this ⊢
    linarith

/-- The recovered value is within `0.5·10^(-dp)` arcseconds of `|x|`. -/
theorem roundtrip_bound (x : ℚ) (dp : ℕ) :
    abs (((roundHU (|x| * 3600 * 10 ^ dp) : ℕ) : ℚ) / 10 ^ dp / 3600 - |x|) * 3600 ≤
      1/2 * (1/10) ^ dp := by
  have hb := roundHU_bound (|x| * 3600 * 10 ^ dp) (by positivity)
  have hpow : (0:ℚ) < 10 ^ dp := by positivity
  have key : ((roundHU (|x| * 3600 * 10 ^ dp) : ℕ) : ℚ) / 10 ^ dp / 3600 - |x| =
      (((roundHU (|x| * 3600 * 10 ^ dp) : ℕ) : ℚ) - |x| * 3600 * 10 ^ dp) /
        (3600 * 10 ^ dp) := by
    field_simp
    ring
  rw [key, abs_div, abs_of_pos (by positivity : (0:ℚ) < 3600 * 10 ^ dp)]
  have h3 : abs (((roundHU (|x| * 3600 * 10 ^ dp) : ℕ) : ℚ) - |x| * 3600 * 10 ^ dp) /
      (3600 * 10 ^ dp) * 3600 =
      abs (((roundHU (|x| * 3600 * 10 ^ dp) : ℕ) : ℚ) - |x| * 3600 * 10 ^ dp) / 10 ^ dp := by
    field_simp
    ring
  have h2 : (1:ℚ)/2 * (1/10) ^ dp = (1/2) / 10 ^ dp := by
    rw [div_pow, one_pow]
    ring
  rw [h3, h2]
  exact (div_le_div_iff_of_pos_right hpow).mpr hb

/-- C4.  Round trip: for every latitude `x ∈ [-90, 90]` and decimal-place
count `dp` (the `dms` default is `dp = 0`), `Geo.parseDMS` applied to
`Geo.toLat(x, 'dms', dp)` succeeds and recovers `x` to within
`0.5·10^(-dp)` arcseconds. -/
theorem c4_dms_roundtrip (x : ℚ) (dp : ℕ) (hlo : -90 ≤ x) (hhi : x ≤ 90) :
    (parseDMSStr (toLatQ x (some Fmt.dms) (some dp))).isSome = true ∧
    abs ((parseDMSStr (toLatQ x (some Fmt.dms) (some dp))).getD 0 - x) * 3600 ≤
      1/2 * (1/10) ^ dp := by
  have habs : |x| ≤ 90 := abs_le.mpr ⟨hlo, hhi⟩
  have hNle : roundHU (|x| * 3600 * 10 ^ dp) ≤ 324000 * 10 ^ dp := by
    rw [roundHU, Int.toNat_le]
    calc ⌊|x| * 3600 * 10 ^ dp + 1/2⌋ ≤ ⌊((324000 * 10 ^ dp : ℕ) : ℚ) + 1/2⌋ := by
          apply Int.floor_mono
          have hp : (0:ℚ) < 10 ^ dp := by positivity
          have h4 : |x| * 3600 * 10 ^ dp ≤ ((324000 * 10 ^ dp : ℕ) : ℚ) := by
            push_cast
            nlinarith
          linarith
      _ = ((324000 * 10 ^ dp : ℕ) : ℤ) := floor_add_half_self _
  have hd100 : roundHU (|x| * 3600 * 10 ^ dp) / (3600 * 10 ^ dp) < 100 := by
    have h1 : roundHU (|x| * 3600 * 10 ^ dp) / (3600 * 10 ^ dp) ≤
        324000 * 10 ^ dp / (3600 * 10 ^ dp) := Nat.div_le_div_right hNle
    have h2 : 324000 * 10 ^ dp / (3600 * 10 ^ dp) = 90 := by
      rw [show 324000 * 10 ^ dp = 90 * (3600 * 10 ^ dp) from by ring]
      exact Nat.mul_div_cancel 90 (by positivity)
    omega
  obtain ⟨f1, hpad, hne1, hd1, hval1⟩ := padTo3_structure _ hd100
  obtain ⟨hp2_dig, hp2_ne, hp2_val⟩ := padTo2_spec
      (roundHU (|x| * 3600 * 10 ^ dp) / (60 * 10 ^ dp) % 60)
  obtain ⟨hsf_chars, hsf_ne, hsf_val⟩ := sfield_spec
      (roundHU (|x| * 3600 * 10 ^ dp) % (60 * 10 ^ dp)) dp
  have hshape : toLatQ x (some Fmt.dms) (some dp) =
      f1 ++ '°' :: (padTo2 (roundHU (|x| * 3600 * 10 ^ dp) / (60 * 10 ^ dp) % 60) ++ '′' ::
        ((if roundHU (|x| * 3600 * 10 ^ dp) % (60 * 10 ^ dp) < 10 * 10 ^ dp then
            '0' :: renderFixed (roundHU (|x| * 3600 * 10 ^ dp) % (60 * 10 ^ dp)) dp
          else renderFixed (roundHU (|x| * 3600 * 10 ^ dp) % (60 * 10 ^ dp)) dp) ++ ['″'])) ++
        [if x < 0 then 'S' else 'N'] := by
    rw [toLatQ, toDMSQ_dms_eval, dmsRender, hpad, List.cons_append]
    simp only [List.drop_succ_cons, List.drop_zero]
  have hf1num : fieldNumber f1 =
      some ((roundHU (|x| * 3600 * 10 ^ dp) / (3600 * 10 ^ dp) : ℕ) : ℚ) := by
    rw [fieldNumber_of_digits f1 hd1 hne1, hval1]
  have hparse := parseDMSStr_render f1
      (padTo2 (roundHU (|x| * 3600 * 10 ^ dp) / (60 * 10 ^ dp) % 60))
      (if roundHU (|x| * 3600 * 10 ^ dp) % (60 * 10 ^ dp) < 10 * 10 ^ dp then
          '0' :: renderFixed (roundHU (|x| * 3600 * 10 ^ dp) % (60 * 10 ^ dp)) dp
        else renderFixed (roundHU (|x| * 3600 * 10 ^ dp) % (60 * 10 ^ dp)) dp)
      (if x < 0 then 'S' else 'N')
      ((roundHU (|x| * 3600 * 10 ^ dp) / (3600 * 10 ^ dp) : ℕ) : ℚ)
      ((roundHU (|x| * 3600 * 10 ^ dp) / (60 * 10 ^ dp) % 60 : ℕ) : ℚ)
      (((roundHU (|x| * 3600 * 10 ^ dp) % (60 * 10 ^ dp) : ℕ) : ℚ) / 10 ^ dp)
      hd1 hne1 (fun c hc => digit_isFieldChar c (hp2_dig c hc)) hp2_ne
      hsf_chars hsf_ne hf1num hp2_val hsf_val
      (by by_cases hx : x < 0
          · rw [if_pos hx]
            right
            rfl
          · rw [if_neg hx]
            left
            rfl)
  rw [hshape, hparse]
  simp only [dms_recombine]
  refine ⟨rfl, ?_⟩
  rw [Option.getD_some]
  have hb := roundtrip_bound x dp
  by_cases hx : x < 0
  · rw [if_pos hx, if_pos rfl]
    have heq : -(((roundHU (|x| * 3600 * 10 ^ dp) : ℕ) : ℚ) / 10 ^ dp / 3600) - x =
        -(((roundHU (|x| * 3600 * 10 ^ dp) : ℕ) : ℚ) / 10 ^ dp / 3600 - |x|) := by
      rw [abs_of_neg hx]
      ring
    rw [heq, abs_neg]
    exact hb
  · rw [if_neg hx, if_neg (by decide : ¬('N' = 'S'))]
    have heq : ((roundHU (|x| * 3600 * 10 ^ dp) : ℕ) : ℚ) / 10 ^ dp / 3600 - x =
        ((roundHU (|x| * 3600 * 10 ^ dp) : ℕ) : ℚ) / 10 ^ dp / 3600 - |x| := by
      rw [abs_of_nonneg (not_lt.mp hx)]
    rw [heq]
    exact hb

/-- Witness for C4 at `x = 0`, `dp = 0`. -/
theorem c4_witness :
    (parseDMSStr (toLatQ 0 (some Fmt.dms) (some 0))).isSome = true ∧
    abs ((parseDMSStr (toLatQ 0 (some Fmt.dms) (some 0))).getD 0 - 0) * 3600 ≤
      1/2 * (1/10) ^ 0 :=
  c4_dms_roundtrip 0 0 (by norm_num) (by norm_num)

theorem findESign_none (sgn : Char) :
    ∀ (s acc : List Char), 'e' ∉ s → findESign sgn acc s = none
  | [], _, _ => rfl
  | [_], _, _ => rfl
  | c :: d :: rest, acc, h => by
    rw [findESign, if_neg]
    · exact findESign_none sgn (d :: rest) (c :: acc)
        (fun hm => h (List.mem_cons_of_mem c hm))
    · rintro ⟨rfl, _⟩
      exact h (List.mem_cons_self _ _)

theorem findESign_hit (sgn : Char) (acc rest : List Char) :
    findESign sgn acc ('e' :: sgn :: rest) = some (acc.reverse, rest) := by
  rw [findESign, if_pos ⟨rfl, rfl⟩]

theorem findESign_append (sgn : Char) :
    ∀ (pre acc l : List Char), 'e' ∉ pre → l ≠ [] →
      findESign sgn acc (pre ++ l) = findESign sgn (pre.reverse ++ acc) l
  | [], acc, l, _, _ => by rw [List.nil_append, List.reverse_nil, List.nil_append]
  | c :: pre, acc, l, h, hl => by
    rw [List.cons_append]
    match hpl : pre ++ l with
    | [] => exact absurd (List.append_eq_nil.mp hpl).2 hl
    | d :: rest =>
      rw [findESign, if_neg]
      · rw [← hpl,
          findESign_append sgn pre (c :: acc) l (fun hm => h (List.mem_cons_of_mem c hm)) hl,
          List.reverse_cons, List.append_assoc]
        rfl
      · rintro ⟨rfl, _⟩
        exact h (List.mem_cons_self _ _)

theorem findESign_of_shape (sgn : Char) (sig exp : List Char) (hsig : 'e' ∉ sig) :
    findESign sgn [] (sig ++ 'e' :: sgn :: exp) = some (sig, exp) := by
  rw [findESign_append sgn sig [] ('e' :: sgn :: exp) hsig (by simp), findESign_hit]
  simp

theorem not_e_mem_of_digits (exp : List Char) (hexp : AllDigits exp) : 'e' ∉ exp :=
  fun hm => absurd (hexp 'e' hm) (by decide)

theorem findESign_plus_on_neg (sig exp : List Char) (hsig : 'e' ∉ sig)
    (hexp : AllDigits exp) : findESign '+' [] (sig ++ 'e' :: '-' :: exp) = none := by
  rw [findESign_append '+' sig [] ('e' :: '-' :: exp) hsig (by simp)]
  rw [findESign, if_neg (by rintro ⟨_, hd⟩; exact absurd hd (by decide))]
  exact findESign_none '+' ('-' :: exp) _
    (by intro hm
        rcases List.mem_cons.mp hm with he | he
        · exact absurd he (by decide)
        · exact not_e_mem_of_digits exp hexp he)

theorem replaceEPlus_no_e (s : List Char) (h : 'e' ∉ s) : replaceEPlus s = s := by
  rw [replaceEPlus, findESign_none '+' s [] h]

theorem replaceENeg_no_e (s : List Char) (h : 'e' ∉ s) : replaceENeg s = s := by
  rw [replaceENeg, findESign_none '-' s [] h]

theorem mem_removeFirstDot (c : Char) (l : List Char) (h : c ∈ removeFirstDot l) :
    c ∈ l := by
  induction l with
  | nil => exact h
  | cons a t ih =>
    rw [removeFirstDot] at h
    by_cases ha : a = '.'
    · rw [if_pos ha] at h
      exact List.mem_cons_of_mem a h
    · rw [if_neg ha] at h
      rcases List.mem_cons.mp h with rfl | h2
      · exact List.mem_cons_self _ _
      · exact List.mem_cons_of_mem a (ih h2)

theorem padPosExp_no_e (sig : List Char) (exp : ℕ) (h : 'e' ∉ sig) :
    'e' ∉ padPosExp sig exp := by
  rw [padPosExp]
  intro hmem
  rcases List.mem_append.mp hmem with hm | hm
  · exact h hm
  · exact absurd (List.eq_of_mem_replicate hm) (by decide)

theorem toPrecisionFixedPost_no_e (s : List Char) (h : PrecOut s) :
    'e' ∉ toPrecisionFixedPost s := by
  rcases h with h | ⟨sig, sgn, exp, rfl, hsig, hsigne, hexpne, hexp, hsgn⟩
  · rw [toPrecisionFixedPost, replaceEPlus_no_e s h, replaceENeg_no_e s h]
    exact h
  · rcases hsgn with rfl | rfl
    · have hplus : replaceEPlus (sig ++ 'e' :: '+' :: exp) =
          padPosExp (removeFirstDot sig) (digitsVal exp) := by
        have h1 : replaceEPlus (sig ++ 'e' :: '+' :: exp) =
            if sig = [] ∨ exp = [] then sig ++ 'e' :: '+' :: exp
            else padPosExp (removeFirstDot sig) (digitsVal exp) := by
          rw [replaceEPlus, findESign_of_shape '+' sig exp hsig]
        rw [h1, if_neg (by simp [hsigne, hexpne])]
      rw [toPrecisionFixedPost, hplus]
      have hout : 'e' ∉ padPosExp (removeFirstDot sig) (digitsVal exp) :=
        padPosExp_no_e _ _ (fun hm => hsig (mem_removeFirstDot 'e' sig hm))
      rw [replaceENeg_no_e _ hout]
      exact hout
    · have hskip : replaceEPlus (sig ++ 'e' :: '-' :: exp) = sig ++ 'e' :: '-' :: exp := by
        rw [replaceEPlus, findESign_plus_on_neg sig exp hsig hexp]
      have hneg1 : replaceENeg (sig ++ 'e' :: '-' :: exp) =
          '0' :: '.' :: (List.replicate (digitsVal exp - 1) '0' ++ removeFirstDot sig) := by
        have h1 : replaceENeg (sig ++ 'e' :: '-' :: exp) =
            if sig = [] ∨ exp = [] then sig ++ 'e' :: '-' :: exp
            else '0' :: '.' :: (List.replicate (digitsVal exp - 1) '0' ++
              removeFirstDot sig) := by
          rw [replaceENeg, findESign_of_shape '-' sig exp hsig]
        rw [h1, if_neg (by simp [hsigne, hexpne])]
      rw [toPrecisionFixedPost, hskip, hneg1]
      intro hmem
      rcases List.mem_cons.mp hmem with h0 | hmem2
      · exact absurd h0 (by decide)
      rcases List.mem_cons.mp hmem2 with h0 | hmem3
      · exact absurd h0 (by decide)
      rcases List.mem_append.mp hmem3 with hm | hm
      · exact absurd (List.eq_of_mem_replicate hm) (by decide)
      · exact hsig (mem_removeFirstDot 'e' sig hm)

/-- C3.  For every well-formed `toPrecision` output — plain fixed-point, or
exponential with either sign — the post-processing of `toPrecisionFixed`
yields a string containing no `e` at all, hence neither of the substrings
`e+` and `e-`. -/
theorem c3_no_exponential (s : List Char) (h : PrecOut s) :
    ¬ (['e', '+'] <:+: toPrecisionFixedPost s) ∧
    ¬ (['e', '-'] <:+: toPrecisionFixedPost s) := by
  have hnoe := toPrecisionFixedPost_no_e s h
  constructor <;>
    (rintro ⟨u, v, huv⟩
     apply hnoe
     rw [← huv]
     simp)

/-- Witness for C3 at the two exponential magnitudes named by the claim. -/
theorem c3_witness :
    (¬ (['e', '+'] <:+: toPrecisionFixedPost ("1.23e+21".toList)) ∧
     ¬ (['e', '-'] <:+: toPrecisionFixedPost ("1.23e+21".toList))) ∧
    (¬ (['e', '+'] <:+: toPrecisionFixedPost ("4.56e-10".toList)) ∧
     ¬ (['e', '-'] <:+: toPrecisionFixedPost ("4.56e-10".toList))) :=
  ⟨c3_no_exponential ("1.23e+21".toList)
      (Or.inr ⟨"1.23".toList, '+', "21".toList, by decide, by decide, by decide,
        by decide, by unfold AllDigits; decide, Or.inl rfl⟩),
   c3_no_exponential ("4.56e-10".toList)
      (Or.inr ⟨"4.56".toList, '-', "10".toList, by decide, by decide, by decide,
        by decide, by unfold AllDigits; decide, Or.inr rfl⟩)⟩

end LatLong
